import Mathlib

/-!
Verification of the nginx-logparser pipeline.

This file gives a shallow embedding, in Lean 4, of the Go sources of the
`alexanderromanov/nginx-logparser` repository:

* `Tailer` — the rotation-aware remote log tailer (`ReadLogs`, `processRecords`,
  `FileInfo.isSame`); scanning models `bufio.Scanner` with its default
  `ScanLines` split function (lines split at `'\n'`, one trailing `'\r'`
  stripped, tokens capped at 64 KiB).
* `Parser` — `parseLine` / `splitLine`, the nine-quoted-field nginx log-line
  parser.  Go `time.Time` values are modeled by their Unix second count
  (an `Int`); `time.Parse(layout, s).UTC()` therefore becomes an explicit
  civil-calendar-to-Unix conversion.
* `StateFile` — the JSON resume-marker persistence (`SaveState`); the
  `encoding/json` marshaller and `ioutil.WriteFile` are external effects and
  enter the model as explicit function arguments whose results `SaveState`
  combines exactly as the Go code does.
* `Agg` — the `UsagesCollection` aggregator (`AddRecord` and its helpers);
  Go maps are modeled by association lists with Go's lookup/overwrite
  semantics, and the per-call effect of `AddRecord` (which in Go mutates
  through a shared pointer under locks) is modeled as a pure state update.
* `Planner` — the batch planner inside `SaveConsumptions` (the pure
  batch-building fold; the subsequent concurrent upload is I/O and is not
  modeled).
* `Azure` — the request-signing canonicalization (`buildCanonicalizedString`,
  `buildCanonicalizedHeader`, `createSharedKeyLite`).  The HMAC-SHA256
  primitive is an external cryptographic function and is passed as an
  explicit argument; the claims under study only concern its input string.

Machine integers (`int`, `int64`) are modeled by `Int` (byte offsets, which
Go only ever uses non-negatively, by `Nat`); none of the verified properties
approach the 2^63 overflow boundary.
-/

/-! ### Generic association-list maps (Go `map` semantics) -/

/-- Go map update `m[k] = v`: replace the binding if the key is present,
otherwise append a fresh binding. -/
def mapSet {α β : Type} [DecidableEq α] : List (α × β) → α → β → List (α × β)
  | [], k, v => [(k, v)]
  | (k', v') :: rest, k, v =>
    if k' = k then (k, v) :: rest else (k', v') :: mapSet rest k v

theorem lookup_mapSet_self {α β : Type} [DecidableEq α] (m : List (α × β)) (k : α) (v : β) :
    List.lookup k (mapSet m k v) = some v := by
  induction m with
  | nil => simp [mapSet, List.lookup]
  | cons p rest ih =>
    obtain ⟨k', v'⟩ := p
    by_cases h : k' = k
    · simp [mapSet, h, List.lookup]
    · have hb : (k == k') = false := beq_eq_false_iff_ne.2 (Ne.symm h)
      simp [mapSet, h, List.lookup, hb, ih]

theorem lookup_mapSet_ne {α β : Type} [DecidableEq α] (m : List (α × β)) (k k₀ : α) (v : β)
    (h : k₀ ≠ k) : List.lookup k₀ (mapSet m k v) = List.lookup k₀ m := by
  have hb : (k₀ == k) = false := beq_eq_false_iff_ne.2 h
  induction m with
  | nil => simp [mapSet, List.lookup, hb]
  | cons p rest ih =>
    obtain ⟨k', v'⟩ := p
    by_cases hk : k' = k
    · subst hk
      simp [mapSet, List.lookup, hb]
    · by_cases hk0 : k' = k₀
      · subst hk0
        simp [mapSet, hk, List.lookup]
      · have hb0 : (k₀ == k') = false := beq_eq_false_iff_ne.2 (Ne.symm hk0)
        simp [mapSet, hk, List.lookup, hb0, ih]

theorem mapSet_keys {α β : Type} [DecidableEq α] (m : List (α × β)) (k : α) (v : β) :
    (mapSet m k v).map Prod.fst =
      if k ∈ m.map Prod.fst then m.map Prod.fst else m.map Prod.fst ++ [k] := by
  induction m with
  | nil => simp [mapSet]
  | cons p rest ih =>
    obtain ⟨k', v'⟩ := p
    by_cases h : k' = k
    · subst h; simp [mapSet]
    · simp only [mapSet, if_neg h, List.map_cons, List.mem_cons]
      rw [ih]
      by_cases hm : k ∈ rest.map Prod.fst
      · simp [hm, Ne.symm h]
      · simp [hm, Ne.symm h]

theorem mem_mapSet {α β : Type} [DecidableEq α] (m : List (α × β)) (k : α) (v : β)
    (hnd : (m.map Prod.fst).Nodup)
    (p : α × β) (hp : p ∈ mapSet m k v) : p = (k, v) ∨ (p ∈ m ∧ p.1 ≠ k) := by
  induction m with
  | nil =>
    simp [mapSet] at hp
    exact Or.inl hp
  | cons q rest ih =>
    obtain ⟨k', v'⟩ := q
    simp only [List.map_cons, List.nodup_cons] at hnd
    by_cases h : k' = k
    · simp only [mapSet] at hp
      rw [if_pos h] at hp
      subst h
      rcases List.mem_cons.mp hp with h1 | h2
      · exact Or.inl h1
      · refine Or.inr ⟨List.mem_cons_of_mem _ h2, ?_⟩
        intro hk
        exact hnd.1 (hk ▸ List.mem_map_of_mem Prod.fst h2)
    · simp only [mapSet] at hp
      rw [if_neg h] at hp
      rcases List.mem_cons.mp hp with h1 | h2
      · subst h1; exact Or.inr ⟨List.mem_cons_self _ _, h⟩
      · rcases ih hnd.2 h2 with h3 | ⟨h4, h5⟩
        · exact Or.inl h3
        · exact Or.inr ⟨List.mem_cons_of_mem _ h4, h5⟩

theorem mapSet_keys_nodup {α β : Type} [DecidableEq α] (m : List (α × β)) (k : α) (v : β)
    (hnd : (m.map Prod.fst).Nodup) : ((mapSet m k v).map Prod.fst).Nodup := by
  rw [mapSet_keys]
  by_cases h : k ∈ m.map Prod.fst
  · simpa [h] using hnd
  · rw [if_neg h, List.nodup_append]
    refine ⟨hnd, List.nodup_singleton k, ?_⟩
    intro a ha hb
    simp only [List.mem_singleton] at hb
    exact h (hb ▸ ha)

/-! ### Decimal rendering (Go `strconv.Itoa` / `strconv.FormatInt`) -/

/-- The decimal digit characters. -/
def digitCh (n : Nat) : Char :=
  if n = 0 then '0' else if n = 1 then '1' else if n = 2 then '2'
  else if n = 3 then '3' else if n = 4 then '4' else if n = 5 then '5'
  else if n = 6 then '6' else if n = 7 then '7' else if n = 8 then '8' else '9'

/-- Digit-run worker, fuel-recursive so that it evaluates inside the
kernel (`fuel > n` always suffices). -/
def natCharsAux : Nat → Nat → List Char → List Char
  | 0, _, acc => acc
  | fuel + 1, n, acc =>
    if n < 10 then digitCh n :: acc
    else natCharsAux fuel (n / 10) (digitCh (n % 10) :: acc)

/-- Decimal digit run of a natural number, most significant digit first
(the digit run emitted by Go's `strconv` for a non-negative value). -/
def natChars (n : Nat) : List Char := natCharsAux (n + 1) n []

theorem natCharsAux_acc :
    ∀ (fuel n : Nat) (acc : List Char), n < fuel →
      natCharsAux fuel n acc = natCharsAux fuel n [] ++ acc := by
  intro fuel
  induction fuel with
  | zero => intro n acc h; omega
  | succ f ih =>
    intro n acc h
    by_cases hn : n < 10
    · rw [natCharsAux, if_pos hn, natCharsAux, if_pos hn]
      rfl
    · have hd : n / 10 < f := by
        have h1 : n / 10 < n := Nat.div_lt_self (by omega) (by norm_num)
        omega
      rw [natCharsAux, if_neg hn, natCharsAux, if_neg hn,
        ih (n / 10) (digitCh (n % 10) :: acc) hd, ih (n / 10) [digitCh (n % 10)] hd,
        List.append_assoc, List.singleton_append]

theorem natCharsAux_fuel :
    ∀ (f₁ f₂ n : Nat) (acc : List Char), n < f₁ → n < f₂ →
      natCharsAux f₁ n acc = natCharsAux f₂ n acc := by
  intro f₁
  induction f₁ with
  | zero => intro f₂ n acc h _; omega
  | succ f ih =>
    intro f₂ n acc h1 h2
    cases f₂ with
    | zero => omega
    | succ g =>
      by_cases hn : n < 10
      · rw [natCharsAux, if_pos hn, natCharsAux, if_pos hn]
      · have hd : n / 10 < n := Nat.div_lt_self (by omega) (by norm_num)
        rw [natCharsAux, if_neg hn, natCharsAux, if_neg hn,
          ih g (n / 10) _ (by omega) (by omega)]

/-- The recursion equation of the digit run. -/
theorem natChars_eq (n : Nat) :
    natChars n = if n < 10 then [digitCh n]
                 else natChars (n / 10) ++ [digitCh (n % 10)] := by
  by_cases hn : n < 10
  · rw [if_pos hn]
    unfold natChars
    rw [natCharsAux, if_pos hn]
  · rw [if_neg hn]
    unfold natChars
    rw [natCharsAux, if_neg hn]
    have hd : n / 10 < n := Nat.div_lt_self (by omega) (by norm_num)
    rw [natCharsAux_acc n (n / 10) [digitCh (n % 10)] (by omega)]
    congr 1
    exact natCharsAux_fuel n (n / 10 + 1) (n / 10) [] (by omega) (by omega)

/-- Go `strconv.Itoa` / `strconv.FormatInt(_, 10)`, as a character list:
an optional minus sign followed by the decimal digit run. -/
def intChars (i : Int) : List Char :=
  if i < 0 then '-' :: natChars i.natAbs else natChars i.toNat

/-- Go `strconv.Itoa` / `strconv.FormatInt(_, 10)`. -/
def itoa (i : Int) : String := String.mk (intChars i)

/-- Value of a digit character. -/
def digitVal (c : Char) : Nat := c.toNat - 48

/-- Reading a digit run back as a number. -/
def digitsVal (l : List Char) : Nat := l.foldl (fun a c => a * 10 + digitVal c) 0

theorem digitsVal_append_one (l : List Char) (c : Char) :
    digitsVal (l ++ [c]) = digitsVal l * 10 + digitVal c := by
  simp [digitsVal, List.foldl_append]

theorem digitVal_digitCh (n : Nat) (h : n < 10) : digitVal (digitCh n) = n := by
  interval_cases n <;> decide

theorem digitsVal_natChars (n : Nat) : digitsVal (natChars n) = n := by
  induction n using Nat.strong_induction_on with
  | _ n ih =>
    rw [natChars_eq]
    by_cases h : n < 10
    · simp only [if_pos h]
      simpa [digitsVal] using digitVal_digitCh n h
    · rw [if_neg h, digitsVal_append_one,
        ih (n / 10) (Nat.div_lt_self (by omega) (by norm_num)),
        digitVal_digitCh (n % 10) (Nat.mod_lt _ (by norm_num))]
      omega

theorem natChars_injective : Function.Injective natChars := by
  intro a b h
  have := digitsVal_natChars a
  rw [h, digitsVal_natChars] at this
  omega

theorem natChars_ne_nil (n : Nat) : natChars n ≠ [] := by
  rw [natChars_eq]
  by_cases h : n < 10 <;> simp [h]

theorem digitCh_isDigit (n : Nat) : (digitCh n).isDigit = true := by
  unfold digitCh
  split_ifs <;> decide

theorem natChars_all_digits (n : Nat) : ∀ c ∈ natChars n, c.isDigit = true := by
  induction n using Nat.strong_induction_on with
  | _ n ih =>
    rw [natChars_eq]
    by_cases h : n < 10
    · simp only [if_pos h, List.mem_singleton]
      rintro c rfl
      exact digitCh_isDigit n
    · simp only [if_neg h, List.mem_append, List.mem_singleton]
      rintro c (hc | rfl)
      · exact ih (n / 10) (Nat.div_lt_self (by omega) (by norm_num)) c hc
      · exact digitCh_isDigit _

theorem dash_not_mem_natChars (n : Nat) : '-' ∉ natChars n := by
  intro h
  have := natChars_all_digits n '-' h
  simp [Char.isDigit] at this

/-- Splitting at a distinguished separator element is unambiguous when the
parts on the left of the separator do not contain it. -/
theorem sep_split_unique {α : Type} [DecidableEq α] (x : α) :
    ∀ (l₁ l₂ r₁ r₂ : List α), x ∉ l₁ → x ∉ l₂ →
      l₁ ++ x :: r₁ = l₂ ++ x :: r₂ → l₁ = l₂ ∧ r₁ = r₂ := by
  intro l₁
  induction l₁ with
  | nil =>
    intro l₂ r₁ r₂ _ h₂ heq
    cases l₂ with
    | nil => simpa using heq
    | cons y l₂' =>
      simp only [List.nil_append, List.cons_append, List.cons.injEq] at heq
      exact absurd (heq.1 ▸ List.mem_cons_self y l₂') h₂
  | cons a l₁' ih =>
    intro l₂ r₁ r₂ h₁ h₂ heq
    cases l₂ with
    | nil =>
      simp only [List.cons_append, List.nil_append, List.cons.injEq] at heq
      exact absurd (heq.1 ▸ List.mem_cons_self a l₁') h₁
    | cons b l₂' =>
      simp only [List.cons_append, List.cons.injEq] at heq
      obtain ⟨rfl, heq'⟩ := heq
      have h₁' : x ∉ l₁' := fun h => h₁ (List.mem_cons_of_mem _ h)
      have h₂' : x ∉ l₂' := fun h => h₂ (List.mem_cons_of_mem _ h)
      obtain ⟨rfl, rfl⟩ := ih l₂' r₁ r₂ h₁' h₂' heq'
      exact ⟨rfl, rfl⟩

theorem intChars_head_digit (i : Int) (hi : ¬ i < 0) :
    ∃ e rest, intChars i = e :: rest ∧ e.isDigit = true := by
  rw [intChars, if_neg hi]
  cases hn : natChars i.toNat with
  | nil => exact absurd hn (natChars_ne_nil _)
  | cons e rest =>
    exact ⟨e, rest, rfl, natChars_all_digits i.toNat e (hn ▸ List.mem_cons_self e rest)⟩

theorem intChars_injective : Function.Injective intChars := by
  intro a b h
  by_cases ha : a < 0 <;> by_cases hb : b < 0
  · rw [intChars, if_pos ha, intChars, if_pos hb] at h
    injection h with _ h2
    have := natChars_injective h2
    omega
  · exfalso
    obtain ⟨e, rest, he, hd⟩ := intChars_head_digit b hb
    have ea : intChars a = '-' :: natChars a.natAbs := by rw [intChars, if_pos ha]
    rw [ea, he] at h
    injection h with h1 _
    rw [← h1] at hd
    simp [Char.isDigit] at hd
  · exfalso
    obtain ⟨e, rest, he, hd⟩ := intChars_head_digit a ha
    have eb : intChars b = '-' :: natChars b.natAbs := by rw [intChars, if_pos hb]
    rw [eb, he] at h
    injection h with h1 _
    rw [h1] at hd
    simp [Char.isDigit] at hd
  · rw [intChars, if_neg ha, intChars, if_neg hb] at h
    have := natChars_injective h
    omega

/-- A rendered integer never contains a dash except as its leading sign:
concatenating two renders around a literal dash separator determines both
integers.  This is what makes the aggregation keys
`Itoa(id) + "-" + FormatInt(hour, 10)` collision-free. -/
theorem intChars_dash_split (a b c d : Int)
    (h : intChars a ++ '-' :: intChars b = intChars c ++ '-' :: intChars d) :
    a = c ∧ b = d := by
  by_cases ha : a < 0 <;> by_cases hc : c < 0
  · have ea : intChars a = '-' :: natChars a.natAbs := by rw [intChars, if_pos ha]
    have ec : intChars c = '-' :: natChars c.natAbs := by rw [intChars, if_pos hc]
    rw [ea, ec] at h
    simp only [List.cons_append, List.cons.injEq, true_and] at h
    obtain ⟨r1, r2⟩ := sep_split_unique '-' _ _ _ _
      (dash_not_mem_natChars _) (dash_not_mem_natChars _) h
    have hac : a = c := by
      have := natChars_injective r1
      omega
    exact ⟨hac, intChars_injective r2⟩
  · exfalso
    obtain ⟨e, rest, he, hd⟩ := intChars_head_digit c hc
    have ea : intChars a = '-' :: natChars a.natAbs := by rw [intChars, if_pos ha]
    rw [ea, he] at h
    simp only [List.cons_append, List.cons.injEq] at h
    rw [← h.1] at hd
    simp [Char.isDigit] at hd
  · exfalso
    obtain ⟨e, rest, he, hd⟩ := intChars_head_digit a ha
    have ec : intChars c = '-' :: natChars c.natAbs := by rw [intChars, if_pos hc]
    rw [ec, he] at h
    simp only [List.cons_append, List.cons.injEq] at h
    rw [h.1] at hd
    simp [Char.isDigit] at hd
  · have ea : intChars a = natChars a.toNat := by rw [intChars, if_neg ha]
    have ec : intChars c = natChars c.toNat := by rw [intChars, if_neg hc]
    rw [ea, ec] at h
    obtain ⟨r1, r2⟩ := sep_split_unique '-' _ _ _ _
      (dash_not_mem_natChars _) (dash_not_mem_natChars _) h
    have hac : a = c := by
      have := natChars_injective r1
      omega
    exact ⟨hac, intChars_injective r2⟩

theorem itoa_dash_inj (a b c d : Int)
    (h : itoa a ++ "-" ++ itoa b = itoa c ++ "-" ++ itoa d) : a = c ∧ b = d := by
  apply intChars_dash_split
  have hd := congrArg String.data h
  simpa [itoa, String.data_append] using hd

/-! ### String concatenation helpers -/

theorem string_append_cancel_left {a x y : String} (h : a ++ x = a ++ y) : x = y := by
  apply String.ext
  have hd := congrArg String.data h
  simp only [String.data_append] at hd
  exact List.append_cancel_left hd

theorem string_append_cancel_right {a x y : String} (h : x ++ a = y ++ a) : x = y := by
  apply String.ext
  have hd := congrArg String.data h
  simp only [String.data_append] at hd
  exact List.append_cancel_right hd

/-- `a ++ x ++ b` determines `x` when `a` and `b` are fixed. -/
theorem string_middle_cancel {a b x y : String} (h : a ++ x ++ b = a ++ y ++ b) : x = y := by
  apply String.ext
  have hd := congrArg String.data h
  simp only [String.data_append, List.append_assoc] at hd
  exact List.append_cancel_right (List.append_cancel_left hd)

/-- Newline-joining of a list of parts, exactly as the Go loops build it
(`"\n"` between consecutive parts, nothing after the last). -/
def joinLines : List String → String
  | [] => ""
  | [x] => x
  | x :: y :: rest => x ++ "\n" ++ joinLines (y :: rest)

theorem joinLines_cons (a : String) (L : List String) (h : L ≠ []) :
    joinLines (a :: L) = a ++ "\n" ++ joinLines L := by
  cases L with
  | nil => exact absurd rfl h
  | cons b bs => rfl

theorem joinLines_cancel (A : List String) (x y : String) (B : List String)
    (h : joinLines (A ++ x :: B) = joinLines (A ++ y :: B)) : x = y := by
  induction A with
  | nil =>
    cases B with
    | nil => simpa [joinLines] using h
    | cons b bs =>
      simp only [List.nil_append, joinLines] at h
      exact string_append_cancel_right (string_append_cancel_right h)
  | cons a A' ih =>
    rw [List.cons_append, List.cons_append,
      joinLines_cons _ _ (by simp), joinLines_cons _ _ (by simp)] at h
    exact ih (string_append_cancel_left h)

/-! ### Civil-calendar / Unix-time conversion

Go `time.Time` values are represented by their Unix second count.  The two
conversions below are the standard era-based civil-date algorithms; they are
used to model `time.Parse` (calendar fields to an instant) and
`time.Time.Format("200601")` (instant back to year/month). -/

/-- Days since 1970-01-01 of the civil date `y-m-d` (proleptic Gregorian). -/
def daysFromCivil (y m d : Int) : Int :=
  let y' := if m ≤ 2 then y - 1 else y
  let era := y'.fdiv 400
  let yoe := y' - era * 400
  let mp := if m > 2 then m - 3 else m + 9
  let doy := (153 * mp + 2).fdiv 5 + d - 1
  let doe := yoe * 365 + yoe.fdiv 4 - yoe.fdiv 100 + doy
  era * 146097 + doe - 719468

/-- Civil date `(y, m, d)` of the day `z` days after 1970-01-01. -/
def civilFromDays (z0 : Int) : Int × Int × Int :=
  let z := z0 + 719468
  let era := z.fdiv 146097
  let doe := z - era * 146097
  let yoe := (doe - doe.fdiv 1460 + doe.fdiv 36524 - doe.fdiv 146096).fdiv 365
  let y := yoe + era * 400
  let doy := doe - (365 * yoe + yoe.fdiv 4 - yoe.fdiv 100)
  let mp := (5 * doy + 2).fdiv 153
  let d := doy - (153 * mp + 2).fdiv 5 + 1
  let m := if mp < 10 then mp + 3 else mp - 9
  (if m ≤ 2 then y + 1 else y, m, d)

namespace Parser

/-- One parsed nginx access-log line (`logsreader.LogRecord`).  The Go struct
also carries `Duration float64`; floating point is outside the model, but the
parse-failure gate on the duration field is kept (`goFloatOk` below). -/
structure LogRecord where
  IPAddress : String
  Time : Int
  Verb : String
  Path : String
  HTTPStatusCode : Int
  Size : Int
  Domain : String
  Referrer : String
  UserAgent : String
deriving DecidableEq, Repr

/-- The scan loop of `regexp.MustCompile("\x22(.*?)\x22").FindAllStringSubmatch`:
outside a quote, skip to the next `'"'`; inside, capture lazily up to the
closing `'"'`; an unterminated final quote yields no further match. -/
def scanQuoted : List Char → Option (List Char) → List (List Char)
  | [], _ => []
  | c :: rest, none =>
    if c = '"' then scanQuoted rest (some []) else scanQuoted rest none
  | c :: rest, some acc =>
    if c = '"' then acc.reverse :: scanQuoted rest none
    else scanQuoted rest (some (c :: acc))

/-- `splitLine` of `state.go`: all capture groups of the quoted-field regex,
or a failure when the line contains no quoted field at all. -/
def splitLine (line : String) : Option (List String) :=
  let ms := scanQuoted line.data none
  if ms.isEmpty then none else some (ms.map String.mk)

/-- Decimal digit of a character, or failure. -/
def digitN (c : Char) : Option Int :=
  if c.isDigit then some ((c.toNat : Int) - 48) else none

/-- Fixed two-digit number. -/
def num2 (a b : Char) : Option Int :=
  match digitN a, digitN b with
  | some x, some y => some (10 * x + y)
  | _, _ => none

/-- Fixed four-digit number. -/
def num4 (a b c d : Char) : Option Int :=
  match digitN a, digitN b, digitN c, digitN d with
  | some x, some y, some z, some w => some (1000 * x + 100 * y + 10 * z + w)
  | _, _, _, _ => none

/-- The three-letter month names of the `Jan` layout element. -/
def monthNum (a b c : Char) : Option Int :=
  if a = 'J' ∧ b = 'a' ∧ c = 'n' then some 1
  else if a = 'F' ∧ b = 'e' ∧ c = 'b' then some 2
  else if a = 'M' ∧ b = 'a' ∧ c = 'r' then some 3
  else if a = 'A' ∧ b = 'p' ∧ c = 'r' then some 4
  else if a = 'M' ∧ b = 'a' ∧ c = 'y' then some 5
  else if a = 'J' ∧ b = 'u' ∧ c = 'n' then some 6
  else if a = 'J' ∧ b = 'u' ∧ c = 'l' then some 7
  else if a = 'A' ∧ b = 'u' ∧ c = 'g' then some 8
  else if a = 'S' ∧ b = 'e' ∧ c = 'p' then some 9
  else if a = 'O' ∧ b = 'c' ∧ c = 't' then some 10
  else if a = 'N' ∧ b = 'o' ∧ c = 'v' then some 11
  else if a = 'D' ∧ b = 'e' ∧ c = 'c' then some 12
  else none

/-- `time.Parse("[02/Jan/2006:15:04:05 -0700]", s).UTC()`, as the Unix second
count of the parsed instant (taking `.UTC()` leaves the instant unchanged).
Numeric layout elements are modeled as fixed-width digit runs; the calendar
range checks `time.Parse` performs on top of that are not needed by any
claim under study. -/
def parseDate (s : String) : Option Int :=
  match s.data with
  | '[' :: d1 :: d2 :: '/' :: m1 :: m2 :: m3 :: '/' :: y1 :: y2 :: y3 :: y4 ::
    ':' :: h1 :: h2 :: ':' :: n1 :: n2 :: ':' :: s1 :: s2 :: ' ' :: sg ::
    z1 :: z2 :: z3 :: z4 :: [']'] =>
    match num2 d1 d2, monthNum m1 m2 m3, num4 y1 y2 y3 y4, num2 h1 h2,
        num2 n1 n2, num2 s1 s2, num2 z1 z2, num2 z3 z4 with
    | some day, some month, some year, some hour, some minute, some second,
      some zh, some zm =>
      let offSign : Option Int :=
        if sg = '+' then some 1 else if sg = '-' then some (-1) else none
      match offSign with
      | some sgn =>
        some (daysFromCivil year month day * 86400 + hour * 3600 + minute * 60 +
          second - sgn * (zh * 3600 + zm * 60))
      | none => none
    | _, _, _, _, _, _, _, _ => none
  | _ => none

/-- All-digit run read as a natural number (helper for `atoi`). -/
def digitsToNat (l : List Char) : Option Nat :=
  if l.isEmpty then none
  else if l.all Char.isDigit then some (digitsVal l) else none

/-- Go `strconv.Atoi`: optional sign, then a non-empty digit run.
(The int64 overflow check is irrelevant at the magnitudes involved.) -/
def atoi (s : String) : Option Int :=
  match s.data with
  | '-' :: rest => (digitsToNat rest).map (fun n => -(n : Int))
  | '+' :: rest => (digitsToNat rest).map (fun n => (n : Int))
  | l => (digitsToNat l).map (fun n => (n : Int))

/-- Validity gate for Go `strconv.ParseFloat` on the duration field:
optional sign, then `inf`/`infinity`/`nan` (case-insensitive) or a decimal
mantissa with optional exponent.  (Hex floats and digit-group underscores,
which never occur in nginx duration fields, are omitted.) -/
def goFloatOk (s : String) : Bool :=
  let l := (match s.data with | '+' :: r => r | '-' :: r => r | r => r)
  let lower := l.map Char.toLower
  if lower = "inf".data ∨ lower = "infinity".data ∨ lower = "nan".data then true
  else
    let p := l.span (fun c => !(c == 'e' || c == 'E'))
    let intD := p.1.takeWhile Char.isDigit
    let rest := p.1.drop intD.length
    let mantOk :=
      match rest with
      | [] => !intD.isEmpty
      | '.' :: frac => frac.all Char.isDigit && (!intD.isEmpty || !frac.isEmpty)
      | _ => false
    let expOk :=
      match p.2 with
      | [] => true
      | _ :: es =>
        let es := (match es with | '+' :: r => r | '-' :: r => r | r => r)
        !es.isEmpty && es.all Char.isDigit
    mantOk && expOk

/-- Go `strings.Split(s, " ")`: split at every space, keeping empty pieces. -/
def splitOnChar (sep : Char) : List Char → List (List Char)
  | [] => [[]]
  | c :: rest =>
    let r := splitOnChar sep rest
    if c = sep then [] :: r else (c :: r.headD []) :: r.tail

/-- Go `strings.Join(parts, " ")`. -/
def joinSpace : List (List Char) → List Char
  | [] => []
  | [x] => x
  | x :: y :: rest => x ++ ' ' :: joinSpace (y :: rest)

/-- `results[0][:strings.Index(results[0], "(")]`.  When the field contains
no `'('`, the Go expression slices with index `-1` and panics; the model
reports failure there (no record is produced either way). -/
def ipPrefix (r0 : String) : Option String :=
  if r0.data.contains '(' then
    some (String.mk (r0.data.takeWhile (fun c => !(c == '('))))
  else none

/-- `parseLine` of `state.go`: split the line into its nine quoted fields and
assemble a `LogRecord`; any field-count mismatch or malformed field is a
parse failure. -/
def parseLine (line : String) : Option LogRecord :=
  match splitLine line with
  | none => none
  | some results =>
    match results with
    | [r0, r1, r2, r3, r4, r5, r6, r7, r8] =>
      match parseDate r1 with
      | none => none
      | some date =>
        if !goFloatOk r2 then none
        else
          let requestStrings := splitOnChar ' ' r3.data
          if requestStrings.length < 3 then none
          else
            match atoi r4, atoi r5, ipPrefix r0 with
            | some status, some size, some ip =>
              some { IPAddress := ip, Time := date,
                     Verb := String.mk (requestStrings.headD []),
                     Path := String.mk (joinSpace ((requestStrings.drop 1).dropLast)),
                     HTTPStatusCode := status, Size := size,
                     Domain := r6, Referrer := r7, UserAgent := r8 }
            | _, _, _ => none
    | _ => none

end Parser

namespace Tailer

/-!
Model of the `FileInfo`-based revision of the log reader (the file defining
`ReadLogs`, `processRecords`, `findPreviouslyRotatedFile` and
`FileInfo.isSame`).  The sftp transport is modeled by a total file-content
map `fs : String → List Char` (the claims under study quantify over runs in
which connecting, opening and seeking succeed; a transport failure aborts the
run without producing a marker and is outside these claims).  The rotated
file detected by `findPreviouslyRotatedFile` (a directory walk) enters the
model as an explicit argument.  `processRecords` hands parsed records to a
callback from a bounded goroutine pool and waits for the pool before
returning, so the set of records per file is deterministic while their
interleaving is not; the model returns them in line order.
-/

/-- `logsreader.FileInfo`: path plus modification time (Unix seconds). -/
structure FileInfo where
  Name : String
  ModifiedDate : Int
deriving DecidableEq, Repr

/-- The resume marker of this revision: identity of the previously rotated
log plus the byte count already read from the active log.  `BytesRead` is a
Go `int` that is only ever assigned non-negative byte counts. -/
structure State where
  RotatedLog : FileInfo
  BytesRead : Nat
deriving DecidableEq, Repr

/-- `FileInfo.isSame`. -/
def FileInfo.isSame (f other : FileInfo) : Bool :=
  other.Name == f.Name && other.ModifiedDate == f.ModifiedDate

/-- `logPath`. -/
def logPath : String := "/var/log/nginx/access.log"

/-- `bufio.MaxScanTokenSize`: the default `bufio.Scanner` buffer limit. -/
def maxTokenSize : Nat := 65536

/-- One trailing carriage return stripped from a scanned token
(`dropCR` inside `bufio.ScanLines`). -/
def dropCR (l : List Char) : List Char :=
  if l.getLast? = some '\r' then l.dropLast else l

/-- The token loop of a default `bufio.Scanner` (`ScanLines` split function):
emit the (CR-stripped) run up to each `'\n'`; at end of input a non-empty
remainder is emitted as a final token; a run of `maxTokenSize` characters
with no newline overflows the buffer (`ErrTooLong`) and silently ends the
scan — `processRecords` never checks `scanner.Err()`.  The first argument
accumulates the current token in reverse. -/
def scanGo : List Char → List Char → List (List Char)
  | acc, [] =>
    if acc.length ≥ maxTokenSize then []
    else if acc.isEmpty then [] else [dropCR acc.reverse]
  | acc, c :: rest =>
    if acc.length ≥ maxTokenSize then []
    else if c = '\n' then dropCR acc.reverse :: scanGo [] rest
    else scanGo (c :: acc) rest

/-- All tokens the scanner produces from `data`. -/
def scanLines (data : List Char) : List (List Char) := scanGo [] data

/-- `processRecords`: seek to `readFrom`, scan line by line, parse each line
(parse failures are logged and skipped), and accumulate
`len(line) + 1` bytes per scanned line.  Returns the records (in line
order) and the accumulated byte count. -/
def processRecords (file : List Char) (readFrom : Nat) : List Parser.LogRecord × Nat :=
  let lines := scanLines (file.drop readFrom)
  (lines.filterMap (fun l => Parser.parseLine (String.mk l)),
   (lines.map (fun l => l.length + 1)).sum)

/-- `ReadLogs` of the `FileInfo` revision: if the detected rotated file is
the one recorded in the marker, resume the active log from the stored
offset; otherwise drain the rotated file from the stored offset first and
read the active log from offset 0.  Returns the records of the run and the
new marker. -/
def ReadLogs (fs : String → List Char) (previouslyRotated : FileInfo)
    (readerState : State) : List Parser.LogRecord × State :=
  if previouslyRotated.isSame readerState.RotatedLog then
    let logOffset := readerState.BytesRead
    let res := processRecords (fs logPath) logOffset
    (res.1, { RotatedLog := previouslyRotated, BytesRead := res.2 + logOffset })
  else
    let logOffset := 0
    let resRot := processRecords (fs previouslyRotated.Name) readerState.BytesRead
    let res := processRecords (fs logPath) logOffset
    (resRot.1 ++ res.1,
     { RotatedLog := previouslyRotated, BytesRead := res.2 + logOffset })

/-- `lines` joined with a `'\n'` terminator after every line: the canonical
shape of a well-formed log file segment. -/
def joinNl (lines : List (List Char)) : List Char :=
  (lines.map (fun l => l ++ ['\n'])).flatten

/-- A line the scanner passes through unchanged: no newline, no carriage
return, below the token-size cap. -/
def GoodLine (l : List Char) : Prop :=
  '\n' ∉ l ∧ '\r' ∉ l ∧ l.length < maxTokenSize

instance (l : List Char) : Decidable (GoodLine l) := by
  unfold GoodLine
  infer_instance

theorem dropCR_no_cr (l : List Char) (h : '\r' ∉ l) : dropCR l = l := by
  unfold dropCR
  cases hl : l.getLast? with
  | none => simp
  | some c =>
    by_cases hc : c = '\r'
    · subst hc
      obtain ⟨hne, hg⟩ := List.mem_getLast?_eq_getLast (Option.mem_def.mpr hl)
      exact absurd (hg ▸ List.getLast_mem hne) h
    · simp [hl, hc]

theorem scanGo_walk (l : List Char) :
    ∀ (acc d : List Char), '\n' ∉ l → acc.length + l.length < maxTokenSize →
      scanGo acc (l ++ '\n' :: d) = dropCR (acc.reverse ++ l) :: scanGo [] d := by
  induction l with
  | nil =>
    intro acc d _ hlen
    simp only [List.nil_append, List.append_nil]
    rw [scanGo, if_neg (by simpa using Nat.not_le.mpr (by simpa using hlen)), if_pos rfl]
  | cons c l' ih =>
    intro acc d hnl hlen
    have hc : c ≠ '\n' := fun h => hnl (h ▸ List.mem_cons_self c l')
    have hlt : ¬ acc.length ≥ maxTokenSize := by
      simp only [List.length_cons] at hlen
      omega
    rw [List.cons_append, scanGo, if_neg hlt, if_neg hc]
    have := ih (c :: acc) d (fun h => hnl (List.mem_cons_of_mem _ h))
      (by simp only [List.length_cons] at hlen ⊢; omega)
    rw [this, List.reverse_cons, List.append_assoc, List.singleton_append]

/-- The scanner on a well-formed, newline-terminated segment returns exactly
its lines. -/
theorem scanLines_joinNl (lines : List (List Char)) (h : ∀ l ∈ lines, GoodLine l) :
    scanLines (joinNl lines) = lines := by
  induction lines with
  | nil => rfl
  | cons l rest ih =>
    obtain ⟨h1, h2, h3⟩ := h l (List.mem_cons_self l rest)
    have step : joinNl (l :: rest) = l ++ '\n' :: joinNl rest := by
      simp [joinNl]
    rw [scanLines, step, scanGo_walk l [] (joinNl rest) h1 (by simpa using h3),
      List.reverse_nil, List.nil_append, dropCR_no_cr l h2]
    exact congrArg (l :: ·) (ih (fun x hx => h x (List.mem_cons_of_mem _ hx)))

theorem joinNl_length (lines : List (List Char)) :
    (joinNl lines).length = (lines.map (fun l => l.length + 1)).sum := by
  induction lines with
  | nil => rfl
  | cons l rest ih =>
    simp only [joinNl, List.map_cons, List.flatten_cons, List.length_append,
      List.sum_cons, List.length_append, List.length_singleton] at ih ⊢
    omega

/-- On a well-formed, newline-terminated segment the accumulated byte count
of `processRecords` is exactly the segment length. -/
theorem processRecords_bytes_of_terminated (lines : List (List Char))
    (h : ∀ l ∈ lines, GoodLine l) :
    ((scanLines (joinNl lines)).map (fun l => l.length + 1)).sum = (joinNl lines).length := by
  rw [scanLines_joinNl lines h, joinNl_length]

/-- The scanner on a well-formed segment whose final line is not
newline-terminated: the final partial line is still emitted. -/
theorem scanLines_joinNl_partial (lines : List (List Char)) (last : List Char)
    (h : ∀ l ∈ lines, GoodLine l) (hlast : GoodLine last) (hne : last ≠ []) :
    scanLines (joinNl lines ++ last) = lines ++ [last] := by
  induction lines with
  | nil =>
    obtain ⟨h1, h2, h3⟩ := hlast
    simp only [joinNl, List.map_nil, List.flatten_nil, List.nil_append]
    rw [scanLines]
    have walk : ∀ (l acc : List Char), '\n' ∉ l → acc.length + l.length < maxTokenSize →
        (acc.isEmpty = false ∨ l ≠ []) →
        scanGo acc l = [dropCR (acc.reverse ++ l)] := by
      intro l
      induction l with
      | nil =>
        intro acc _ hlen hne'
        rcases hne' with h' | h'
        · rw [scanGo, if_neg (by omega), if_neg (by simp [h']), List.append_nil]
        · exact absurd rfl h'
      | cons c l' ih =>
        intro acc hnl hlen _
        have hc : c ≠ '\n' := fun hh => hnl (hh ▸ List.mem_cons_self c l')
        rw [scanGo, if_neg (by simp only [List.length_cons] at hlen; omega), if_neg hc]
        have := ih (c :: acc) (fun hh => hnl (List.mem_cons_of_mem _ hh))
          (by simp only [List.length_cons] at hlen ⊢; omega) (Or.inl (by simp))
        rw [this, List.reverse_cons, List.append_assoc, List.singleton_append]
    rw [walk last [] h1 (by simpa using h3) (Or.inr hne), List.reverse_nil,
      List.nil_append, dropCR_no_cr last h2]
  | cons l rest ih =>
    obtain ⟨h1, h2, h3⟩ := h l (List.mem_cons_self l rest)
    have step : joinNl (l :: rest) ++ last = l ++ '\n' :: (joinNl rest ++ last) := by
      simp [joinNl]
    rw [scanLines, step, scanGo_walk l _ _ h1 (by simpa using h3),
      List.reverse_nil, List.nil_append, dropCR_no_cr l h2]
    have := ih (fun x hx => h x (List.mem_cons_of_mem _ hx))
    rw [scanLines] at this
    rw [this]
    rfl

end Tailer

namespace StateFile

/-!
Model of `state.go`: the persisted resume marker.  `json.Marshal` and
`ioutil.WriteFile` are external effects; they enter the model as explicit
function arguments (`marshal`, `writeFile`), and `SaveState` combines their
results exactly as the Go function does — in particular the `WriteFile`
result is evaluated and then discarded.
-/

/-- `logsreader.ConnectionInfo` (`servers.go`). -/
structure ConnectionInfo where
  Address : String
  Port : Int
  UserName : String
  Password : String
deriving DecidableEq, Repr

/-- `logsreader.State` of `state.go`. -/
structure State where
  NotZippedLogFile : String
  ReadFromAccessLog : Int
deriving DecidableEq, Repr

/-- The JSON projection `stateJSON`. -/
structure stateJSON where
  LastLog : String
  BytesRead : Int
deriving DecidableEq, Repr

/-- `buildStateFileName`: `fmt.Sprintf("state_%d.json", conn.Port)`. -/
def buildStateFileName (conn : ConnectionInfo) : String :=
  "state_" ++ itoa conn.Port ++ ".json"

/-- `SaveState`.  `marshal` stands for `json.Marshal`, `writeFile` for
`ioutil.WriteFile` (its error result is bound to nothing in the Go code).
The return value is the Go `error`: `some e` for a non-nil error. -/
def SaveState (marshal : stateJSON → Except String String)
    (writeFile : String → String → Except String Unit)
    (conn : ConnectionInfo) (stats : State) : Option String :=
  let s : stateJSON := { LastLog := stats.NotZippedLogFile,
                         BytesRead := stats.ReadFromAccessLog }
  match marshal s with
  | .error e => some e
  | .ok data =>
    let _ := writeFile (buildStateFileName conn) data
    none

end StateFile

namespace Agg

/-!
Model of the `UsagesCollection` aggregator.  Go maps become association
lists (`mapSet` / `List.lookup`); the `sync` locks serialize each
`AddRecord`, so a run is a fold of `AddRecord` over the records, and the
per-call effect (which in Go mutates the looked-up `*ConsumptionRecord` in
place) is the corresponding pure update of the keyed entry.
-/

/-- `websites.WebsiteInfo`. -/
structure WebsiteInfo where
  ID : Int
deriving DecidableEq, Repr

/-- `consumptions.ConsumptionRecord`. -/
structure ConsumptionRecord where
  WebsiteID : Int
  Time : Int
  FilesCount : Int
  Files : Int
  Dynamic : Int
  DynamicCount : Int
  Other : Int
  OtherCount : Int
deriving DecidableEq, Repr

/-- `consumptions.UsagesCollection` (the three `sync` mutexes guard the three
maps and have no pure-state counterpart). -/
structure UsagesCollection where
  usages : List (String × ConsumptionRecord)
  domains : List (String × WebsiteInfo)
  unknownDomains : List (String × Int)
deriving DecidableEq, Repr

/-- `NewUsagesCollection`. -/
def NewUsagesCollection (domains : List (String × WebsiteInfo)) : UsagesCollection :=
  { usages := [], domains := domains, unknownDomains := [] }

/-- `getHour`: `time.Date(t.Year(), t.Month(), t.Day(), t.Hour(), 0, 0, 0,
time.UTC)` on a UTC instant truncates it to the hour, i.e. to the previous
multiple of 3600 Unix seconds. -/
def getHour (t : Int) : Int := t - t % 3600

/-- `isFile`: `strings.HasPrefix(path, "/filestore/")`. -/
def isFile (path : String) : Bool := List.isPrefixOf "/filestore/".data path.data

/-- `isOther`. -/
def isOther (statusCode : Int) : Bool := statusCode == 400

/-- The keys of the `domainsToIgnore` map. -/
def domainsToIgnore : List String := ["cdn.redham.ru", "*"]

/-- `shouldIgnore`. -/
def shouldIgnore (record : Parser.LogRecord) : Bool :=
  if record.HTTPStatusCode == 410 then true
  else domainsToIgnore.contains record.Domain

/-- `addUnknownDomain`. -/
def addUnknownDomain (usages : UsagesCollection) (domain : String) : UsagesCollection :=
  { usages with
    unknownDomains := mapSet usages.unknownDomains domain
      ((List.lookup domain usages.unknownDomains).getD 0 + 1) }

/-- The aggregation key built inline in `AddRecord`:
`strconv.Itoa(website.ID) + "-" + strconv.FormatInt(hour.Unix(), 10)`. -/
def usageKey (id hour : Int) : String := itoa id ++ "-" ++ itoa hour

/-- The fresh bucket created on a key miss:
`&ConsumptionRecord{WebsiteID: website.ID, Time: hour}`. -/
def freshRecord (id hour : Int) : ConsumptionRecord :=
  { WebsiteID := id, Time := hour, FilesCount := 0, Files := 0,
    Dynamic := 0, DynamicCount := 0, Other := 0, OtherCount := 0 }

/-- The classification switch at the end of `AddRecord`. -/
def classify (usageRecord : ConsumptionRecord) (record : Parser.LogRecord) :
    ConsumptionRecord :=
  if isFile record.Path then
    { usageRecord with Files := usageRecord.Files + record.Size,
                       FilesCount := usageRecord.FilesCount + 1 }
  else if isOther record.HTTPStatusCode then
    { usageRecord with Other := usageRecord.Other + record.Size,
                       OtherCount := usageRecord.OtherCount + 1 }
  else
    { usageRecord with Dynamic := usageRecord.Dynamic + record.Size,
                       DynamicCount := usageRecord.DynamicCount + 1 }

/-- `UsagesCollection.AddRecord`. -/
def AddRecord (usages : UsagesCollection) (record : Parser.LogRecord) :
    UsagesCollection :=
  if shouldIgnore record then usages
  else
    match List.lookup record.Domain usages.domains with
    | none => addUnknownDomain usages record.Domain
    | some website =>
      let hour := getHour record.Time
      let key := usageKey website.ID hour
      let usageRecord :=
        match List.lookup key usages.usages with
        | some r => r
        | none => freshRecord website.ID hour
      { usages with usages := mapSet usages.usages key (classify usageRecord record) }

/-- `GetTrafficConsumption` (map-range order modeled as list order). -/
def GetTrafficConsumption (usages : UsagesCollection) : List ConsumptionRecord :=
  usages.usages.map Prod.snd

end Agg

namespace Planner

/-!
Model of the batch-building phase of `consumptions.SaveConsumptions`
(`WebsiteConsumptions` is the per-website map of consumption records; it is
modeled, like every Go map that is ranged over, as an association list in
iteration order).  The table name comes from `getOrCreateUsageTable`, whose
return value is `TableNameTemplate + stat.Time.Format("200601")`; its
create-table side effect and the later concurrent upload loops do not touch
the batch structure and are not part of the model.
-/

/-- `consumptions.AzureStorageSettings`. -/
structure AzureStorageSettings where
  AccountName : String
  Key : String
  TableNameTemplate : String
deriving DecidableEq, Repr

/-- `maxBatchSize`. -/
def maxBatchSize : Nat := 100

/-- `storage.TableEntity`.  The `Fields` payload of an upload entity holds
the six consumption counters and the record's Unix timestamp — all
integers. -/
structure TableEntity where
  PartitionKey : String
  RowKey : String
  Fields : List (String × Int)
deriving DecidableEq, Repr

/-- `generateRowKey`: `fmt.Sprintf("%d-%s-%d", stats.Time.Unix(), server, now.Unix())`. -/
def generateRowKey (stats : Agg.ConsumptionRecord) (server : String) (now : Int) : String :=
  itoa stats.Time ++ "-" ++ server ++ "-" ++ itoa now

/-- Zero-padded month of `Format("200601")`. -/
def pad2 (m : Int) : String := if m < 10 then "0" ++ itoa m else itoa m

/-- Four-digit year of `Format("200601")` (zero-padded for years below
1000, as Go's `appendInt(_, 4)` pads). -/
def pad4 (y : Int) : String :=
  (if y < 0 then "-" else "") ++
    (let n := y.natAbs
     (if n < 10 then "000" else if n < 100 then "00" else if n < 1000 then "0" else "") ++
       String.mk (natChars n))

/-- `stat.Time.Format("200601")` on the UTC instant `t`. -/
def formatYYYYMM (t : Int) : String :=
  let c := civilFromDays (t.fdiv 86400)
  pad4 c.1 ++ pad2 c.2.1

/-- The table name `getOrCreateUsageTable` returns:
`AzureTable(settings.TableNameTemplate + requestTime.Format("200601"))`. -/
def usageTableName (settings : AzureStorageSettings) (requestTime : Int) : String :=
  settings.TableNameTemplate ++ formatYYYYMM requestTime

/-- The entity literal built in the `SaveConsumptions` loop. -/
def mkEntity (websiteID : Int) (stat : Agg.ConsumptionRecord) (serverName : String)
    (now : Int) : TableEntity :=
  { PartitionKey := itoa websiteID,
    RowKey := generateRowKey stat serverName now,
    Fields := [("Time", stat.Time), ("Files", stat.Files),
               ("FilesCount", stat.FilesCount), ("Dynamic", stat.Dynamic),
               ("DynamicCount", stat.DynamicCount), ("Other", stat.Other),
               ("OtherCount", stat.OtherCount)] }

/-- The per-website batch update of one loop iteration: ensure a non-empty
batch list, then either open a new batch (when adding one more entity to the
latest batch would reach `maxBatchSize`) or append to the latest batch. -/
def addToBatches (websiteBatches : List (List TableEntity)) (entity : TableEntity) :
    List (List TableEntity) :=
  let bs := if websiteBatches.isEmpty then [[]] else websiteBatches
  let latest := bs.getLastD []
  if latest.length + 1 ≥ maxBatchSize then bs ++ [[entity]]
  else bs.dropLast ++ [latest ++ [entity]]

/-- The nested batch map built by `SaveConsumptions`:
table name → website id → ordered batch list. -/
abbrev BatchMap := List (String × List (Int × List (List TableEntity)))

/-- One iteration of the inner `SaveConsumptions` loop body. -/
def saveStep (settings : AzureStorageSettings) (serverName : String) (now : Int)
    (websiteID : Int) (batches : BatchMap) (stat : Agg.ConsumptionRecord) : BatchMap :=
  let entity := mkEntity websiteID stat serverName now
  let usageTable := usageTableName settings stat.Time
  let tableBatches := (List.lookup usageTable batches).getD []
  let websiteBatches := addToBatches ((List.lookup websiteID tableBatches).getD []) entity
  mapSet batches usageTable (mapSet tableBatches websiteID websiteBatches)

/-- The whole batch-building double loop of `SaveConsumptions`. -/
def saveConsumptionsBatches (settings : AzureStorageSettings)
    (consumptions : List (Int × List Agg.ConsumptionRecord))
    (serverName : String) (now : Int) : BatchMap :=
  consumptions.foldl
    (fun batches wr => wr.2.foldl (saveStep settings serverName now wr.1) batches) []

/-- The batch list a given website receives in a given table. -/
def batchesFor (b : BatchMap) (table : String) (websiteID : Int) :
    List (List TableEntity) :=
  (List.lookup websiteID ((List.lookup table b).getD [])).getD []

end Planner

namespace Azure

/-!
Model of the request-signing canonicalization of `client.go`.  A header map
is an association list in Go-map iteration order; `headers[k]` is
`hGet` (empty string when absent).  `computeHmac256` (HMAC-SHA256 over the
account key, base64-encoded) is a fixed pure function of the message; the
claims under study concern only its input, so it enters the model as an
explicit argument `hmac : String → String`.  `sort.Strings` is modeled by an
insertion sort (ascending lexicographic order).
-/

/-- The Azure client identity (`Client.accountName`; the decoded account key
lives inside the `hmac` argument). -/
structure Client where
  accountName : String
deriving DecidableEq, Repr

/-- Go map lookup `headers[k]` (zero value `""` when the key is absent). -/
def hGet (headers : List (String × String)) (k : String) : String :=
  (List.lookup k headers).getD ""

/-- Unanchored substring containment test on character lists. -/
def hasSub (pat : List Char) : List Char → Bool
  | [] => pat.isEmpty
  | c :: rest => pat.isPrefixOf (c :: rest) || hasSub pat rest

/-- `regexp.MatchString("x-ms-", headerName)`: unanchored substring test. -/
def xmsMatch (headerName : String) : Bool :=
  hasSub "x-ms-".data headerName.data

/-- ASCII whitespace, as `strings.TrimSpace` strips it (header names are
ASCII). -/
def isGoSpace (c : Char) : Bool :=
  c = ' ' || c = '\t' || c = '\n' || c = '\x0b' || c = '\x0c' || c = '\r'

/-- Trim from both ends. -/
def trimChars (l : List Char) : List Char :=
  ((l.dropWhile isGoSpace).reverse.dropWhile isGoSpace).reverse

/-- `strings.TrimSpace(strings.ToLower(k))`. -/
def normalizeHeaderName (k : String) : String :=
  String.mk (trimChars (k.data.map Char.toLower))

/-- One iteration of the `cm`-building loop of `buildCanonicalizedHeader`:
a header whose normalized name contains the vendor marker is recorded under
its normalized name, anything else is skipped. -/
def cmStep (cm : List (String × String)) (p : String × String) :
    List (String × String) :=
  let headerName := normalizeHeaderName p.1
  if xmsMatch headerName then mapSet cm headerName p.2 else cm

/-- The `cm` map of `buildCanonicalizedHeader`: every header whose
normalized name contains the vendor marker, keyed by normalized name. -/
def cmOf (headers : List (String × String)) : List (String × String) :=
  headers.foldl cmStep []

/-- Insertion step of the `sort.Strings` model. -/
def insertSorted (s : String) : List String → List String
  | [] => [s]
  | x :: xs => if s ≤ x then s :: x :: xs else x :: insertSorted s xs

/-- `sort.Strings` (ascending lexicographic order). -/
def sortStrings (l : List String) : List String := l.foldr insertSorted []

/-- `buildCanonicalizedHeader`: empty when no vendor header is present,
otherwise the sorted `key:value` lines of the `cm` map. -/
def buildCanonicalizedHeader (headers : List (String × String)) : String :=
  let cm := cmOf headers
  if cm.isEmpty then ""
  else
    let keys := sortStrings (cm.map Prod.fst)
    joinLines (keys.map (fun key => key ++ ":" ++ hGet cm key))

/-- The eleven header names `buildCanonicalizedString` reads directly, in
the order its format string lists them. -/
def fixedHeaderNames : List String :=
  ["Content-Encoding", "Content-Language", "Content-Length", "Content-MD5",
   "Content-Type", "Date", "If-Modified-Since", "If-Match", "If-None-Match",
   "If-Unmodified-Since", "Range"]

/-- The value a directly-read header contributes to its slot:
`Content-Length` is blanked when it is `"0"`, all other values pass
through. -/
def slotVal (n v : String) : String :=
  if n = "Content-Length" ∧ v = "0" then "" else v

/-- The fourteen fields of the `Sprintf` format string of
`buildCanonicalizedString`: the verb, the eleven directly-read headers (with
the `Content-Length` blanking), the canonicalized vendor headers, and the
canonicalized resource. -/
def canonicalFields (verb : String) (headers : List (String × String))
    (canonicalizedResource : String) : List String :=
  verb :: (fixedHeaderNames.map (fun n => slotVal n (hGet headers n)) ++
    [buildCanonicalizedHeader headers, canonicalizedResource])

/-- `buildCanonicalizedString`: the fourteen fields above, newline-joined
exactly as the `Sprintf` format string does. -/
def buildCanonicalizedString (verb : String) (headers : List (String × String))
    (canonicalizedResource : String) : String :=
  joinLines (canonicalFields verb headers canonicalizedResource)

/-- `createAuthorizationHeader`: `"SharedKey <account>:<signature>"`. -/
def createAuthorizationHeader (c : Client) (hmac : String → String)
    (canonicalizedString : String) : String :=
  "SharedKey " ++ c.accountName ++ ":" ++ hmac canonicalizedString

/-- `buildCanonicalizedResourceTable`: `"/" + accountName + u.Path`.  The
`net/url` parse of the full URI is reduced to its path component, which is
all the function uses. -/
def buildCanonicalizedResourceTable (c : Client) (uriPath : String) : String :=
  "/" ++ c.accountName ++ uriPath

/-- The `strToSign` of `createSharedKeyLite`:
`headers["x-ms-date"] + "\n" + canonicalizedResource`. -/
def liteStringToSign (c : Client) (uriPath : String)
    (headers : List (String × String)) : String :=
  hGet headers "x-ms-date" ++ "\n" ++ buildCanonicalizedResourceTable c uriPath

/-- `createSharedKeyLite`: `"SharedKeyLite <account>:<hmac strToSign>"`. -/
def createSharedKeyLite (c : Client) (hmac : String → String) (uriPath : String)
    (headers : List (String × String)) : String :=
  "SharedKeyLite " ++ c.accountName ++ ":" ++ hmac (liteStringToSign c uriPath headers)

end Azure

/-! ### Claim C4 — rotated-file identity comparison -/

/-- Claim C4: two rotated-file identities are treated as the same (rotation
has not occurred) if and only if both the file path and the modification
timestamp are equal; in particular a file with the same name but a different
modification time is treated as a new rotated file. -/
theorem c4_rotation_identity :
    (∀ f other : Tailer.FileInfo,
      f.isSame other = true ↔
        other.Name = f.Name ∧ other.ModifiedDate = f.ModifiedDate) ∧
    (∀ f other : Tailer.FileInfo, other.Name = f.Name →
      other.ModifiedDate ≠ f.ModifiedDate → f.isSame other = false) := by
  constructor
  · intro f other
    simp [Tailer.FileInfo.isSame]
  · intro f other hn hm
    simp [Tailer.FileInfo.isSame, hn, hm]

/-- Witness for C4 at concrete file identities: equal path and timestamp
compare as same; equal path with a newer timestamp compares as different. -/
theorem c4_rotation_identity_witness :
    Tailer.FileInfo.isSame
      { Name := "/var/log/nginx/access.log-20160801", ModifiedDate := 1470009600 }
      { Name := "/var/log/nginx/access.log-20160801", ModifiedDate := 1470009600 } = true ∧
    Tailer.FileInfo.isSame
      { Name := "/var/log/nginx/access.log-20160801", ModifiedDate := 1470009600 }
      { Name := "/var/log/nginx/access.log-20160801", ModifiedDate := 1470096000 } = false :=
  ⟨(c4_rotation_identity.1 _ _).mpr ⟨rfl, rfl⟩,
   c4_rotation_identity.2 _ _ rfl (by decide)⟩

/-! ### Claim C2 — a run across a rotation -/

/-- Claim C2: when the detected rotated file differs from the marker's
rotated-file identity, `ReadLogs` processes the rotated file from the
previous marker's byte offset, then the active log from offset 0, and the
new marker carries the newly detected rotated file's identity with offset
exactly the byte count consumed from the active file. -/
theorem c2_rotation_run (fs : String → List Char) (prev : Tailer.FileInfo)
    (st : Tailer.State) (h : prev.isSame st.RotatedLog = false) :
    Tailer.ReadLogs fs prev st =
      ((Tailer.processRecords (fs prev.Name) st.BytesRead).1 ++
        (Tailer.processRecords (fs Tailer.logPath) 0).1,
       { RotatedLog := prev,
         BytesRead := (Tailer.processRecords (fs Tailer.logPath) 0).2 }) := by
  unfold Tailer.ReadLogs
  simp [h]

/-- Witness for C2: a concrete run over a rotation.  The old active file
(now rotated) holds `"a 1\nb 2\n"` of which 4 bytes were already consumed,
the new active file holds `"c 3\n"`; the run scans the old tail and the
whole new file and the new marker points at the new file with offset 4. -/
theorem c2_rotation_run_witness :
    Tailer.ReadLogs
      (fun n => if n = "/var/log/nginx/access.log-20160801" then "a 1\nb 2\n".data
                else if n = Tailer.logPath then "c 3\n".data else [])
      { Name := "/var/log/nginx/access.log-20160801", ModifiedDate := 1470009600 }
      { RotatedLog := { Name := "/var/log/nginx/access.log-20160731", ModifiedDate := 1469923200 },
        BytesRead := 4 } =
      ((Tailer.processRecords "a 1\nb 2\n".data 4).1 ++
        (Tailer.processRecords "c 3\n".data 0).1,
       { RotatedLog := { Name := "/var/log/nginx/access.log-20160801",
                         ModifiedDate := 1470009600 },
         BytesRead := 4 }) := by
  have h := c2_rotation_run
    (fun n => if n = "/var/log/nginx/access.log-20160801" then "a 1\nb 2\n".data
              else if n = Tailer.logPath then "c 3\n".data else [])
    { Name := "/var/log/nginx/access.log-20160801", ModifiedDate := 1470009600 }
    { RotatedLog := { Name := "/var/log/nginx/access.log-20160731", ModifiedDate := 1469923200 },
      BytesRead := 4 }
    (by decide)
  rw [h]
  rfl

/-! ### Claim C10 — `SaveState` discards the file-write result -/

/-- Claim C10: the outcome of `SaveState` does not depend on the file write
at all (any two write effects give the same result); every error it returns
is the marshalling error, and whenever marshalling succeeds it returns nil
even if the write fails — a caller can never observe a persistence
failure. -/
theorem c10_saveState_ignores_write (marshal : StateFile.stateJSON → Except String String)
    (w₁ w₂ : String → String → Except String Unit)
    (conn : StateFile.ConnectionInfo) (stats : StateFile.State) :
    StateFile.SaveState marshal w₁ conn stats = StateFile.SaveState marshal w₂ conn stats ∧
    (∀ e, StateFile.SaveState marshal w₁ conn stats = some e →
      marshal { LastLog := stats.NotZippedLogFile,
                BytesRead := stats.ReadFromAccessLog } = .error e) ∧
    (∀ d, marshal { LastLog := stats.NotZippedLogFile,
                    BytesRead := stats.ReadFromAccessLog } = .ok d →
      StateFile.SaveState marshal w₁ conn stats = none) := by
  unfold StateFile.SaveState
  cases hm : marshal { LastLog := stats.NotZippedLogFile,
                       BytesRead := stats.ReadFromAccessLog } with
  | error e => simp [hm]
  | ok d => simp [hm]

/-- Witness for C10: with a marshaller that succeeds and a write effect that
always fails, `SaveState` still reports success. -/
theorem c10_saveState_ignores_write_witness :
    StateFile.SaveState (fun s => .ok s.LastLog) (fun _ _ => .error "disk full")
      { Address := "10.0.0.1", Port := 2022, UserName := "u", Password := "p" }
      { NotZippedLogFile := "/var/log/nginx/access.log-20160731", ReadFromAccessLog := 512 } =
      none :=
  (c10_saveState_ignores_write (fun s => .ok s.LastLog) (fun _ _ => .error "disk full")
    (fun _ _ => .error "disk full")
    { Address := "10.0.0.1", Port := 2022, UserName := "u", Password := "p" }
    { NotZippedLogFile := "/var/log/nginx/access.log-20160731",
      ReadFromAccessLog := 512 }).2.2 _ rfl

/-! ### Claim C9 — the one-past-the-end offset -/

/-- Claim C9 (amended): the byte offset `processRecords` returns equals the
sum over scanned lines of (line length + 1); and for every non-empty
segment free of carriage returns, with lines below the scanner's 64 KiB
cap, whose final line is not newline-terminated, the returned offset
exceeds the number of bytes actually present by exactly one — so the new
marker can point one byte past end-of-file. -/
theorem c9_offset_overshoot :
    (∀ (file : List Char) (readFrom : Nat),
      (Tailer.processRecords file readFrom).2 =
        ((Tailer.scanLines (file.drop readFrom)).map (fun l => l.length + 1)).sum) ∧
    (∀ (lines : List (List Char)) (last : List Char),
      (∀ l ∈ lines, Tailer.GoodLine l) → Tailer.GoodLine last → last ≠ [] →
      (Tailer.processRecords (Tailer.joinNl lines ++ last) 0).2 =
        (Tailer.joinNl lines ++ last).length + 1) := by
  constructor
  · intro file readFrom
    rfl
  · intro lines last h hlast hne
    show ((Tailer.scanLines ((Tailer.joinNl lines ++ last).drop 0)).map
      (fun l => l.length + 1)).sum = _
    rw [List.drop_zero, Tailer.scanLines_joinNl_partial lines last h hlast hne,
      List.map_append, List.sum_append, ← Tailer.joinNl_length]
    simp only [List.map_cons, List.map_nil, List.sum_cons, List.sum_nil,
      List.length_append]
    omega

/-- Witness for C9 at a concrete segment: `"ab\ncd"` scans as two lines and
`processRecords` reports 6 bytes for the 5 present. -/
theorem c9_offset_overshoot_witness :
    (Tailer.processRecords "ab\ncd".data 0).2 =
      ((Tailer.scanLines "ab\ncd".data).map (fun l => l.length + 1)).sum ∧
    (Tailer.processRecords "ab\ncd".data 0).2 = "ab\ncd".data.length + 1 := by
  constructor
  · have h := c9_offset_overshoot.1 "ab\ncd".data 0
    simpa using h
  · have h := c9_offset_overshoot.2 ["ab".data] "cd".data
      (by decide) (by decide) (by decide)
    have he : Tailer.joinNl ["ab".data] ++ "cd".data = "ab\ncd".data := by decide
    rw [he] at h
    exact h

/-- Counterexample to C9 as stated: the scanner strips one carriage return
before the byte count is taken, so for the segment `"a\r"` — whose final
line is not terminated by a newline — the returned offset equals the bytes
present instead of exceeding them. -/
theorem c9_counterexample :
    (Tailer.processRecords "a\r".data 0).2 = 2 ∧
    "a\r".data.length = 2 ∧
    ¬ (Tailer.processRecords "a\r".data 0).2 > "a\r".data.length := by
  decide

/-! ### Claim C3 — resuming from a marker without rotation -/

/-- Claim C3 (amended): with the rotated-file identity unchanged and a
marker offset `N ≤ L`, when the unread tail `[N, L)` of the active file is
a sequence of newline-terminated lines free of carriage returns and below
the scanner's 64 KiB cap, `ReadLogs` returns exactly the records parsed
from those lines and a new marker with offset `L`; and when the marker
offset has already reached the file length, re-running returns zero new
records and the unchanged marker. -/
theorem c3_resume_exact :
    (∀ (fs : String → List Char) (prev : Tailer.FileInfo) (st : Tailer.State)
      (lines : List (List Char)),
      prev.isSame st.RotatedLog = true →
      (fs Tailer.logPath).drop st.BytesRead = Tailer.joinNl lines →
      (∀ l ∈ lines, Tailer.GoodLine l) →
      st.BytesRead ≤ (fs Tailer.logPath).length →
      Tailer.ReadLogs fs prev st =
        (lines.filterMap (fun l => Parser.parseLine (String.mk l)),
         { RotatedLog := prev, BytesRead := (fs Tailer.logPath).length })) ∧
    (∀ (fs : String → List Char) (prev : Tailer.FileInfo) (st : Tailer.State),
      prev.isSame st.RotatedLog = true →
      (fs Tailer.logPath).length ≤ st.BytesRead →
      Tailer.ReadLogs fs prev st = ([], st)) := by
  constructor
  · intro fs prev st lines hsame hseg hgood hle
    have hbytes : (Tailer.processRecords (fs Tailer.logPath) st.BytesRead).2 =
        (Tailer.joinNl lines).length := by
      show ((Tailer.scanLines ((fs Tailer.logPath).drop st.BytesRead)).map
        (fun l => l.length + 1)).sum = _
      rw [hseg, Tailer.scanLines_joinNl lines hgood, Tailer.joinNl_length]
    have hrecs : (Tailer.processRecords (fs Tailer.logPath) st.BytesRead).1 =
        lines.filterMap (fun l => Parser.parseLine (String.mk l)) := by
      show ((Tailer.scanLines ((fs Tailer.logPath).drop st.BytesRead)).filterMap
        (fun l => Parser.parseLine (String.mk l))) = _
      rw [hseg, Tailer.scanLines_joinNl lines hgood]
    have hlen : (Tailer.joinNl lines).length =
        (fs Tailer.logPath).length - st.BytesRead := by
      rw [← hseg, List.length_drop]
    unfold Tailer.ReadLogs
    simp only [hsame, if_true]
    rw [Prod.mk.injEq]
    refine ⟨hrecs, ?_⟩
    rw [Tailer.State.mk.injEq]
    refine ⟨rfl, ?_⟩
    rw [hbytes, hlen]
    omega
  · intro fs prev st hsame hge
    have hdrop : (fs Tailer.logPath).drop st.BytesRead = [] :=
      List.drop_eq_nil_of_le hge
    have heq : prev = st.RotatedLog := by
      have hp : st.RotatedLog.Name = prev.Name ∧
          st.RotatedLog.ModifiedDate = prev.ModifiedDate := by
        simpa [Tailer.FileInfo.isSame] using hsame
      calc prev = ⟨prev.Name, prev.ModifiedDate⟩ := rfl
        _ = ⟨st.RotatedLog.Name, st.RotatedLog.ModifiedDate⟩ := by rw [hp.1, hp.2]
        _ = st.RotatedLog := rfl
    unfold Tailer.ReadLogs
    simp only [hsame, if_true]
    have hproc : Tailer.processRecords (fs Tailer.logPath) st.BytesRead = ([], 0) := by
      unfold Tailer.processRecords
      rw [hdrop]
      rfl
    rw [hproc]
    simp only [Nat.zero_add]
    rw [Prod.mk.injEq]
    refine ⟨rfl, ?_⟩
    rw [heq]

/-- Witness for C3: a concrete 8-byte active file `"a b\nc d\n"` with marker
offset 4 and unchanged rotation yields exactly the records of the tail line
`"c d"` and a marker at offset 8; re-running at offset 8 yields nothing
new and leaves the marker unchanged. -/
theorem c3_resume_exact_witness :
    Tailer.ReadLogs
      (fun n => if n = Tailer.logPath then "a b\nc d\n".data else [])
      { Name := "/var/log/nginx/access.log-20160731", ModifiedDate := 1469923200 }
      { RotatedLog := { Name := "/var/log/nginx/access.log-20160731",
                        ModifiedDate := 1469923200 }, BytesRead := 4 } =
      (["c d".data].filterMap (fun l => Parser.parseLine (String.mk l)),
       { RotatedLog := { Name := "/var/log/nginx/access.log-20160731",
                         ModifiedDate := 1469923200 }, BytesRead := 8 }) ∧
    Tailer.ReadLogs
      (fun n => if n = Tailer.logPath then "a b\nc d\n".data else [])
      { Name := "/var/log/nginx/access.log-20160731", ModifiedDate := 1469923200 }
      { RotatedLog := { Name := "/var/log/nginx/access.log-20160731",
                        ModifiedDate := 1469923200 }, BytesRead := 8 } =
      ([], { RotatedLog := { Name := "/var/log/nginx/access.log-20160731",
                             ModifiedDate := 1469923200 }, BytesRead := 8 }) := by
  constructor
  · have h := c3_resume_exact.1
      (fun n => if n = Tailer.logPath then "a b\nc d\n".data else [])
      { Name := "/var/log/nginx/access.log-20160731", ModifiedDate := 1469923200 }
      { RotatedLog := { Name := "/var/log/nginx/access.log-20160731",
                        ModifiedDate := 1469923200 }, BytesRead := 4 }
      ["c d".data] (by decide) (by decide) (by decide) (by decide)
    simpa using h
  · exact c3_resume_exact.2
      (fun n => if n = Tailer.logPath then "a b\nc d\n".data else [])
      { Name := "/var/log/nginx/access.log-20160731", ModifiedDate := 1469923200 }
      { RotatedLog := { Name := "/var/log/nginx/access.log-20160731",
                        ModifiedDate := 1469923200 }, BytesRead := 8 }
      (by decide) (by decide)

/-- Counterexample to C3 as stated: for the 3-byte active file `"a\nb"`
(final line not newline-terminated), length L = 3 and marker offset N = 0,
the returned marker offset is 4, not L. -/
theorem c3_counterexample :
    "a\nb".data.length = 3 ∧
    (Tailer.ReadLogs (fun _ => "a\nb".data)
      { Name := "f", ModifiedDate := 0 }
      { RotatedLog := { Name := "f", ModifiedDate := 0 },
        BytesRead := 0 }).2.BytesRead = 4 := by
  decide

/-! ### Claim C6 — the round-trip example line -/

/-- Counterexample to C6 as stated: in the spec's example line the
client-address field `111.111.111.111(-)` carries no quotes, so the
quoted-field regex finds only eight fields and `parseLine` rejects the
line (the parser's own documented format quotes all nine fields). -/
theorem c6_counterexample :
    Parser.parseLine "111.111.111.111(-) \"[31/Jul/2016:22:54:30 +0400]\" \"0.247\" \"GET /some/file.jpg HTTP/1.1\" \"200\" \"32327\" \"some-domain.com\" \"http://some-referrer.com/\" \"UA\"" =
      none := by
  decide

/-- Claim C6 (amended): the example line with the client-address field
quoted parses successfully to a record with Unix time 1469991270 — which is
2016-07-31T18:54:30 UTC, as the second conjunct spells out against the
calendar conversion — HTTP status 200, size 32327 and domain
`some-domain.com`. -/
theorem c6_roundtrip :
    Parser.parseLine "\"111.111.111.111(-)\" \"[31/Jul/2016:22:54:30 +0400]\" \"0.247\" \"GET /some/file.jpg HTTP/1.1\" \"200\" \"32327\" \"some-domain.com\" \"http://some-referrer.com/\" \"UA\"" =
      some { IPAddress := "111.111.111.111", Time := 1469991270, Verb := "GET",
             Path := "/some/file.jpg", HTTPStatusCode := 200, Size := 32327,
             Domain := "some-domain.com", Referrer := "http://some-referrer.com/",
             UserAgent := "UA" } ∧
    (1469991270 : Int) =
      daysFromCivil 2016 7 31 * 86400 + 18 * 3600 + 54 * 60 + 30 := by
  constructor
  · decide
  · decide

/-! ### Claim C5 — traffic classification and the ignore filter -/

/-- Claim C5 (amended): for a record that is not filtered out and whose
domain resolves to a known website, `AddRecord` updates exactly the bucket
of that website and record hour: a `/filestore/` path adds the size to the
static-files total and bumps the files count; otherwise status 400 adds to
the "other" total; otherwise to the "dynamic" total — each leaving the
remaining totals, all other buckets, and the unknown-domain counters
untouched.  A record with status 410 or with a deny-listed domain
(`cdn.redham.ru` or the wildcard `*`) leaves the whole collection
unchanged — no bucket is created or modified. -/
theorem c5_classification :
    (∀ (s : Agg.UsagesCollection) (r : Parser.LogRecord) (w : Agg.WebsiteInfo),
      Agg.shouldIgnore r = false →
      List.lookup r.Domain s.domains = some w →
      ∃ upd : Agg.ConsumptionRecord,
        List.lookup (Agg.usageKey w.ID (Agg.getHour r.Time)) (Agg.AddRecord s r).usages =
          some upd ∧
        (let old := (List.lookup (Agg.usageKey w.ID (Agg.getHour r.Time)) s.usages).getD
            (Agg.freshRecord w.ID (Agg.getHour r.Time))
         (Agg.isFile r.Path = true →
            upd.Files = old.Files + r.Size ∧ upd.FilesCount = old.FilesCount + 1 ∧
            upd.Dynamic = old.Dynamic ∧ upd.DynamicCount = old.DynamicCount ∧
            upd.Other = old.Other ∧ upd.OtherCount = old.OtherCount) ∧
         (Agg.isFile r.Path = false → r.HTTPStatusCode = 400 →
            upd.Other = old.Other + r.Size ∧ upd.OtherCount = old.OtherCount + 1 ∧
            upd.Files = old.Files ∧ upd.FilesCount = old.FilesCount ∧
            upd.Dynamic = old.Dynamic ∧ upd.DynamicCount = old.DynamicCount) ∧
         (Agg.isFile r.Path = false → ¬ r.HTTPStatusCode = 400 →
            upd.Dynamic = old.Dynamic + r.Size ∧ upd.DynamicCount = old.DynamicCount + 1 ∧
            upd.Files = old.Files ∧ upd.FilesCount = old.FilesCount ∧
            upd.Other = old.Other ∧ upd.OtherCount = old.OtherCount)) ∧
        (∀ k, k ≠ Agg.usageKey w.ID (Agg.getHour r.Time) →
          List.lookup k (Agg.AddRecord s r).usages = List.lookup k s.usages) ∧
        (Agg.AddRecord s r).unknownDomains = s.unknownDomains) ∧
    (∀ (s : Agg.UsagesCollection) (r : Parser.LogRecord),
      (r.HTTPStatusCode = 410 ∨ r.Domain = "cdn.redham.ru" ∨ r.Domain = "*") →
      Agg.AddRecord s r = s) := by
  constructor
  · intro s r w hig hdom
    have hadd : (Agg.AddRecord s r).usages =
          mapSet s.usages (Agg.usageKey w.ID (Agg.getHour r.Time))
            (Agg.classify
              ((List.lookup (Agg.usageKey w.ID (Agg.getHour r.Time)) s.usages).getD
                (Agg.freshRecord w.ID (Agg.getHour r.Time))) r) ∧
        (Agg.AddRecord s r).unknownDomains = s.unknownDomains := by
      unfold Agg.AddRecord
      simp only [hig, Bool.false_eq_true, if_false, hdom]
      cases hl : List.lookup (Agg.usageKey w.ID (Agg.getHour r.Time)) s.usages <;>
        simp [hl]
    refine ⟨Agg.classify
      ((List.lookup (Agg.usageKey w.ID (Agg.getHour r.Time)) s.usages).getD
        (Agg.freshRecord w.ID (Agg.getHour r.Time))) r, ?_, ?_, ?_, hadd.2⟩
    · rw [hadd.1]
      exact lookup_mapSet_self _ _ _
    · refine ⟨?_, ?_, ?_⟩
      · intro hf
        simp [Agg.classify, hf]
      · intro hf ho
        simp [Agg.classify, hf, Agg.isOther, ho]
      · intro hf ho
        have hob : Agg.isOther r.HTTPStatusCode = false := by
          simp [Agg.isOther, ho]
        simp [Agg.classify, hf, hob]
    · intro k hk
      rw [hadd.1]
      exact lookup_mapSet_ne _ _ _ _ hk
  · intro s r hcase
    have hig : Agg.shouldIgnore r = true := by
      rcases hcase with h | h | h <;>
        simp [Agg.shouldIgnore, Agg.domainsToIgnore, h]
    unfold Agg.AddRecord
    simp [hig]

/-- Witness for C5: a known-domain `/filestore/` record lands in the
static-files total of its website's hour bucket, and a status-410 record
leaves the collection untouched. -/
theorem c5_classification_witness :
    (∃ upd : Agg.ConsumptionRecord,
      List.lookup (Agg.usageKey 7 3600)
        (Agg.AddRecord (Agg.NewUsagesCollection [("d.com", { ID := 7 })])
          { IPAddress := "1.2.3.4", Time := 3661, Verb := "GET",
            Path := "/filestore/x.jpg", HTTPStatusCode := 200, Size := 10,
            Domain := "d.com", Referrer := "-", UserAgent := "UA" }).usages =
        some upd ∧ upd.Files = 10 ∧ upd.FilesCount = 1) ∧
    Agg.AddRecord (Agg.NewUsagesCollection [("d.com", { ID := 7 })])
      { IPAddress := "1.2.3.4", Time := 3661, Verb := "GET",
        Path := "/x.jpg", HTTPStatusCode := 410, Size := 10,
        Domain := "d.com", Referrer := "-", UserAgent := "UA" } =
      Agg.NewUsagesCollection [("d.com", { ID := 7 })] := by
  constructor
  · obtain ⟨upd, h1, h2, _, _⟩ := c5_classification.1
      (Agg.NewUsagesCollection [("d.com", { ID := 7 })])
      { IPAddress := "1.2.3.4", Time := 3661, Verb := "GET",
        Path := "/filestore/x.jpg", HTTPStatusCode := 200, Size := 10,
        Domain := "d.com", Referrer := "-", UserAgent := "UA" }
      { ID := 7 } (by decide) (by decide)
    have hkey : Agg.getHour (3661 : Int) = 3600 := by decide
    rw [hkey] at h1 h2
    obtain ⟨hf1, hf2, _, _, _, _⟩ := h2.1 (by decide)
    refine ⟨upd, h1, ?_, ?_⟩
    · rw [hf1]; decide
    · rw [hf2]; decide
  · exact c5_classification.2 _ _ (Or.inl rfl)

/-- Counterexample to C5 as stated: a record whose path begins with
`/filestore/` but whose domain is unknown to the mapping adds its size to
no bucket at all — the usages map stays empty — while the claim as stated
asserts an unconditional static-files addition. -/
theorem c5_counterexample :
    Agg.isFile "/filestore/a.jpg" = true ∧
    Agg.shouldIgnore
      { IPAddress := "1.2.3.4", Time := 0, Verb := "GET",
        Path := "/filestore/a.jpg", HTTPStatusCode := 200, Size := 5,
        Domain := "unknown.example", Referrer := "-", UserAgent := "UA" } = false ∧
    (Agg.AddRecord (Agg.NewUsagesCollection [])
      { IPAddress := "1.2.3.4", Time := 0, Verb := "GET",
        Path := "/filestore/a.jpg", HTTPStatusCode := 200, Size := 5,
        Domain := "unknown.example", Referrer := "-", UserAgent := "UA" }).usages = [] := by
  decide

/-! ### Claim C1 — the batch planner -/

/-- Greedy chunks of at most 99 elements: the shape into which the
`SaveConsumptions` batch loop (cap check `len+1 >= 100` *before*
appending) actually groups a website's entities. -/
def chunk99 {α : Type} : List α → List (List α)
  | [] => []
  | x :: xs => ((x :: xs).take 99) :: chunk99 ((x :: xs).drop 99)
  termination_by l => l.length
  decreasing_by simp only [List.length_drop, List.length_cons]; omega

theorem chunk99_cons_eq {α : Type} (l : List α) (h : l ≠ []) :
    chunk99 l = l.take 99 :: chunk99 (l.drop 99) := by
  cases l with
  | nil => exact absurd rfl h
  | cons x xs => rw [chunk99]

theorem chunk99_length {α : Type} (l : List α) :
    (chunk99 l).length = (l.length + 98) / 99 := by
  induction l using chunk99.induct with
  | case1 => simp [chunk99]
  | case2 x xs ih =>
    rw [chunk99, List.length_cons, ih]
    simp only [List.length_drop, List.length_cons]
    omega

theorem chunk99_mem_le {α : Type} (l : List α) : ∀ c ∈ chunk99 l, c.length ≤ 99 := by
  induction l using chunk99.induct with
  | case1 => simp [chunk99]
  | case2 x xs ih =>
    rw [chunk99]
    intro c hc
    rcases List.mem_cons.mp hc with rfl | hc'
    · rw [List.length_take]
      omega
    · exact ih c hc'

theorem chunk99_mem_mem {α : Type} (l : List α) :
    ∀ c ∈ chunk99 l, ∀ e ∈ c, e ∈ l := by
  induction l using chunk99.induct with
  | case1 => simp [chunk99]
  | case2 x xs ih =>
    rw [chunk99]
    intro c hc e he
    rcases List.mem_cons.mp hc with rfl | hc'
    · exact List.mem_of_mem_take he
    · exact List.mem_of_mem_drop (ih c hc' e he)

theorem chunk99_mem_ne_nil {α : Type} (l : List α) : ∀ c ∈ chunk99 l, c ≠ [] := by
  induction l using chunk99.induct with
  | case1 => simp [chunk99]
  | case2 x xs ih =>
    rw [chunk99]
    intro c hc
    rcases List.mem_cons.mp hc with rfl | hc'
    · simp
    · exact ih c hc'

theorem chunk99_dropLast_full {α : Type} (l : List α) :
    ∀ c ∈ (chunk99 l).dropLast, c.length = 99 := by
  induction l using chunk99.induct with
  | case1 => simp [chunk99]
  | case2 x xs ih =>
    rw [chunk99]
    intro c hc
    cases hrest : chunk99 ((x :: xs).drop 99) with
    | nil =>
      rw [hrest] at hc
      simp at hc
    | cons a t =>
      rw [hrest] at hc
      rw [List.dropLast_cons_of_ne_nil (by simp)] at hc
      have hdne : (x :: xs).drop 99 ≠ [] := by
        intro hh
        rw [hh] at hrest
        simp [chunk99] at hrest
      have hlen : 99 < (x :: xs).length := by
        by_contra hle
        exact hdne (List.drop_eq_nil_of_le (by omega))
      rcases List.mem_cons.mp hc with rfl | hc'
      · rw [List.length_take]
        omega
      · have := ih
        rw [hrest] at this
        exact this c hc'

/-- The tail of the `SaveConsumptions` batch fold: keep filling the open
batch to 99 entities, then start a new one. -/
def fillChunks : List Planner.TableEntity → List Planner.TableEntity →
    List (List Planner.TableEntity)
  | b, [] => [b]
  | b, e :: es => if b.length ≥ 99 then b :: fillChunks [e] es
                  else fillChunks (b ++ [e]) es

theorem fillChunks_eq_chunk99 :
    ∀ (es b : List Planner.TableEntity), b ≠ [] → b.length ≤ 99 →
      fillChunks b es = chunk99 (b ++ es) := by
  intro es
  induction es with
  | nil =>
    intro b hne hle
    rw [fillChunks, List.append_nil, chunk99_cons_eq b hne,
      List.take_of_length_le hle, List.drop_eq_nil_of_le hle]
    simp [chunk99]
  | cons e es' ih =>
    intro b hne hle
    rw [fillChunks]
    by_cases hb : b.length ≥ 99
    · have h99 : b.length = 99 := le_antisymm hle hb
      rw [if_pos hb, ih [e] (by simp) (by simp),
        chunk99_cons_eq (b ++ e :: es') (by simp [hne])]
      congr 1
      · rw [List.take_append_eq_append_take, h99, Nat.sub_self,
          List.take_zero, List.append_nil, List.take_of_length_le (le_of_eq h99)]
      · rw [List.drop_append_eq_append_drop, h99, Nat.sub_self, List.drop_zero,
          List.drop_eq_nil_of_le (le_of_eq h99), List.nil_append, List.singleton_append]
    · have hlen : (b ++ [e]).length ≤ 99 := by
        simp only [List.length_append, List.length_singleton]
        omega
      rw [if_neg hb, ih (b ++ [e]) (by simp) hlen]
      rw [List.append_assoc, List.singleton_append]

theorem foldl_addToBatches_eq :
    ∀ (es : List Planner.TableEntity) (bs : List (List Planner.TableEntity))
      (b : List Planner.TableEntity), b.length ≤ 99 →
      List.foldl Planner.addToBatches (bs ++ [b]) es = bs ++ fillChunks b es := by
  intro es
  induction es with
  | nil =>
    intro bs b _
    rw [List.foldl_nil, fillChunks]
  | cons e es' ih =>
    intro bs b hle
    rw [List.foldl_cons]
    by_cases hb : b.length + 1 ≥ Planner.maxBatchSize
    · have haddeq : Planner.addToBatches (bs ++ [b]) e = (bs ++ [b]) ++ [[e]] := by
        unfold Planner.addToBatches
        have hne : (bs ++ [b]).isEmpty = false := by simp
        rw [hne]
        simp only [Bool.false_eq_true, if_false, List.getLastD_concat]
        rw [if_pos hb]
      rw [haddeq, ih (bs ++ [b]) [e] (by simp)]
      have hfill : fillChunks b (e :: es') = b :: fillChunks [e] es' := by
        rw [fillChunks, if_pos (by simp only [Planner.maxBatchSize] at hb; omega)]
      rw [hfill, List.append_assoc, List.singleton_append]
    · have haddeq : Planner.addToBatches (bs ++ [b]) e = bs ++ [b ++ [e]] := by
        unfold Planner.addToBatches
        have hne : (bs ++ [b]).isEmpty = false := by simp
        rw [hne]
        simp only [Bool.false_eq_true, if_false, List.getLastD_concat]
        rw [if_neg hb, List.dropLast_concat]
      have hlen : (b ++ [e]).length ≤ 99 := by
        simp only [Planner.maxBatchSize] at hb
        simp only [List.length_append, List.length_singleton]
        omega
      rw [haddeq, ih bs (b ++ [e]) hlen]
      have hfill : fillChunks b (e :: es') = fillChunks (b ++ [e]) es' := by
        rw [fillChunks, if_neg (by simp only [Planner.maxBatchSize] at hb; omega)]
      rw [hfill]

theorem foldl_addToBatches_nil (es : List Planner.TableEntity) :
    List.foldl Planner.addToBatches [] es = chunk99 es := by
  cases es with
  | nil => simp [chunk99]
  | cons e es' =>
    rw [List.foldl_cons]
    have h1 : Planner.addToBatches [] e = [] ++ [[e]] := by
      unfold Planner.addToBatches
      rfl
    rw [h1, foldl_addToBatches_eq es' [] [e] (by simp),
      fillChunks_eq_chunk99 es' [e] (by simp) (by simp), List.nil_append,
      List.singleton_append]

theorem saveStep_single (settings : Planner.AzureStorageSettings) (server : String)
    (now : Int) (w : Int) (T : String) :
    ∀ (records : List Agg.ConsumptionRecord) (B : List (List Planner.TableEntity)),
      (∀ r ∈ records, Planner.usageTableName settings r.Time = T) →
      records.foldl (Planner.saveStep settings server now w) [(T, [(w, B)])] =
        [(T, [(w, records.foldl
          (fun bs st => Planner.addToBatches bs (Planner.mkEntity w st server now)) B)])] := by
  intro records
  induction records with
  | nil =>
    intro B _
    rfl
  | cons r rs ih =>
    intro B hT
    rw [List.foldl_cons, List.foldl_cons]
    have hstep : Planner.saveStep settings server now w [(T, [(w, B)])] r =
        [(T, [(w, Planner.addToBatches B (Planner.mkEntity w r server now))])] := by
      unfold Planner.saveStep
      rw [hT r (List.mem_cons_self r rs)]
      simp [List.lookup, mapSet]
    rw [hstep]
    exact ih _ (fun x hx => hT x (List.mem_cons_of_mem _ hx))

theorem saveConsumptions_single (settings : Planner.AzureStorageSettings)
    (server : String) (now : Int) (w : Int) (T : String)
    (records : List Agg.ConsumptionRecord)
    (hT : ∀ r ∈ records, Planner.usageTableName settings r.Time = T) :
    Planner.batchesFor
        (Planner.saveConsumptionsBatches settings [(w, records)] server now) T w =
      chunk99 (records.map (fun st => Planner.mkEntity w st server now)) := by
  unfold Planner.saveConsumptionsBatches
  rw [List.foldl_cons, List.foldl_nil]
  cases records with
  | nil =>
    simp [Planner.batchesFor, chunk99, List.lookup]
  | cons r rs =>
    rw [List.foldl_cons]
    have h0 : Planner.saveStep settings server now w [] r =
        [(T, [(w, Planner.addToBatches [] (Planner.mkEntity w r server now))])] := by
      unfold Planner.saveStep
      rw [hT r (List.mem_cons_self r rs)]
      simp [List.lookup, mapSet]
    have hB : Planner.addToBatches [] (Planner.mkEntity w r server now) =
        [[Planner.mkEntity w r server now]] := by
      unfold Planner.addToBatches
      rfl
    rw [h0, saveStep_single settings server now w T rs _
      (fun x hx => hT x (List.mem_cons_of_mem _ hx))]
    unfold Planner.batchesFor
    simp only [List.lookup, beq_self_eq_true, Option.getD_some]
    rw [hB]
    have hfold : List.foldl
        (fun bs st => Planner.addToBatches bs (Planner.mkEntity w st server now))
        [[Planner.mkEntity w r server now]] rs =
        List.foldl Planner.addToBatches [[Planner.mkEntity w r server now]]
          (rs.map (fun st => Planner.mkEntity w st server now)) := by
      rw [List.foldl_map]
    rw [hfold]
    have h1 : ([] : List (List Planner.TableEntity)) ++
        [[Planner.mkEntity w r server now]] = [[Planner.mkEntity w r server now]] := rfl
    rw [← h1, foldl_addToBatches_eq _ [] [Planner.mkEntity w r server now] (by simp),
      fillChunks_eq_chunk99 _ _ (by simp) (by simp), List.nil_append,
      List.singleton_append, List.map_cons]

/-- Claim C1 (amended): for a run whose consumption records all belong to
one website `w` and all map to one destination table `T`, the planner
produces, under `T` and `w`'s partition, exactly `ceil(N / 99)` batches
(the code opens a new batch as soon as adding one more entity *would
reach* the cap of 100, so a batch never actually holds more than 99
entities); every batch but the last holds exactly 99 entities, no batch is
empty or exceeds the cap, and every entity in every batch carries the
website id rendered as a string for its partition key. -/
theorem c1_batching (settings : Planner.AzureStorageSettings) (w : Int)
    (records : List Agg.ConsumptionRecord) (server : String) (now : Int) (T : String)
    (hT : ∀ r ∈ records, Planner.usageTableName settings r.Time = T) :
    (Planner.batchesFor
        (Planner.saveConsumptionsBatches settings [(w, records)] server now) T w).length =
      (records.length + 98) / 99 ∧
    (∀ b ∈ Planner.batchesFor
        (Planner.saveConsumptionsBatches settings [(w, records)] server now) T w,
      b.length ≤ 99 ∧ b ≠ []) ∧
    (∀ b ∈ (Planner.batchesFor
        (Planner.saveConsumptionsBatches settings [(w, records)] server now) T w).dropLast,
      b.length = 99) ∧
    (∀ b ∈ Planner.batchesFor
        (Planner.saveConsumptionsBatches settings [(w, records)] server now) T w,
      ∀ e ∈ b, e.PartitionKey = itoa w) := by
  rw [saveConsumptions_single settings server now w T records hT]
  refine ⟨?_, ?_, ?_, ?_⟩
  · rw [chunk99_length, List.length_map]
  · intro b hb
    exact ⟨chunk99_mem_le _ b hb, chunk99_mem_ne_nil _ b hb⟩
  · exact chunk99_dropLast_full _
  · intro b hb e he
    have hmem := chunk99_mem_mem _ b hb e he
    obtain ⟨st, _, rfl⟩ := List.mem_map.mp hmem
    rfl

/-- Witness for C1: two records of one website in one month-table produce a
single two-entity batch whose entities both carry partition key `"7"`. -/
theorem c1_batching_witness :
    (Planner.batchesFor
        (Planner.saveConsumptionsBatches
          { AccountName := "acct", Key := "a2V5", TableNameTemplate := "usage" }
          [(7, [{ WebsiteID := 7, Time := 0, FilesCount := 1, Files := 10,
                  Dynamic := 0, DynamicCount := 0, Other := 0, OtherCount := 0 },
                { WebsiteID := 7, Time := 3600, FilesCount := 0, Files := 0,
                  Dynamic := 20, DynamicCount := 2, Other := 0, OtherCount := 0 }])]
          "srv" 99) "usage197001" 7).length = 1 ∧
    (∀ b ∈ Planner.batchesFor
        (Planner.saveConsumptionsBatches
          { AccountName := "acct", Key := "a2V5", TableNameTemplate := "usage" }
          [(7, [{ WebsiteID := 7, Time := 0, FilesCount := 1, Files := 10,
                  Dynamic := 0, DynamicCount := 0, Other := 0, OtherCount := 0 },
                { WebsiteID := 7, Time := 3600, FilesCount := 0, Files := 0,
                  Dynamic := 20, DynamicCount := 2, Other := 0, OtherCount := 0 }])]
          "srv" 99) "usage197001" 7,
      ∀ e ∈ b, e.PartitionKey = itoa 7) := by
  have h := c1_batching
    { AccountName := "acct", Key := "a2V5", TableNameTemplate := "usage" } 7
    [{ WebsiteID := 7, Time := 0, FilesCount := 1, Files := 10,
       Dynamic := 0, DynamicCount := 0, Other := 0, OtherCount := 0 },
     { WebsiteID := 7, Time := 3600, FilesCount := 0, Files := 0,
       Dynamic := 20, DynamicCount := 2, Other := 0, OtherCount := 0 }]
    "srv" 99 "usage197001" (by decide)
  exact ⟨h.1, h.2.2.2⟩

set_option maxRecDepth 100000 in
/-- Counterexample to C1 as stated: 100 records of one website in one table
yield 2 batches, not `ceil(100 / 100) = 1` — the planner opens the second
batch at the 100th entity because its cap check fires one entity early. -/
theorem c1_counterexample :
    (Planner.batchesFor
        (Planner.saveConsumptionsBatches
          { AccountName := "acct", Key := "a2V5", TableNameTemplate := "usage" }
          [(1, List.replicate 100
            { WebsiteID := 1, Time := 0, FilesCount := 0, Files := 0,
              Dynamic := 0, DynamicCount := 0, Other := 0, OtherCount := 0 })]
          "srv" 0) "usage197001" 1).length = 2 ∧
    (100 + 100 - 1) / 100 = 1 := by
  constructor
  · decide
  · decide

/-! ### Claim C8 — the aggregation-state invariant -/

theorem lookup_mem {β : Type} (l : List (String × β)) (k : String) (v : β)
    (h : List.lookup k l = some v) : (k, v) ∈ l := by
  induction l with
  | nil => simp [List.lookup] at h
  | cons p rest ih =>
    obtain ⟨k', v'⟩ := p
    by_cases hk : k = k'
    · subst hk
      simp [List.lookup] at h
      simp [h]
    · have hb : (k == k') = false := beq_eq_false_iff_ne.2 hk
      simp only [List.lookup, hb] at h
      exact List.mem_cons_of_mem _ (ih h)

/-- The aggregation-map invariant: bucket keys are distinct and each bucket
is stored under the key derived from its own website id and hour. -/
def aggInv (s : Agg.UsagesCollection) : Prop :=
  (s.usages.map Prod.fst).Nodup ∧
  ∀ p ∈ s.usages, p.1 = Agg.usageKey p.2.WebsiteID p.2.Time

instance (s : Agg.UsagesCollection) : Decidable (aggInv s) := by
  unfold aggInv
  infer_instance

theorem classify_fields (u : Agg.ConsumptionRecord) (r : Parser.LogRecord) :
    (Agg.classify u r).WebsiteID = u.WebsiteID ∧ (Agg.classify u r).Time = u.Time := by
  unfold Agg.classify
  split_ifs <;> exact ⟨rfl, rfl⟩

theorem usageKey_inj (a b c d : Int) (h : Agg.usageKey a b = Agg.usageKey c d) :
    a = c ∧ b = d :=
  itoa_dash_inj a b c d h

/-- In the resolved branch, the freshly looked-up-or-created bucket carries
the website id and hour of its key. -/
theorem addRecord_bucket_fields (s : Agg.UsagesCollection) (w : Agg.WebsiteInfo)
    (hour : Int) (hinv : aggInv s) :
    (match List.lookup (Agg.usageKey w.ID hour) s.usages with
      | some r => r
      | none => Agg.freshRecord w.ID hour).WebsiteID = w.ID ∧
    (match List.lookup (Agg.usageKey w.ID hour) s.usages with
      | some r => r
      | none => Agg.freshRecord w.ID hour).Time = hour := by
  cases hl : List.lookup (Agg.usageKey w.ID hour) s.usages with
  | none => exact ⟨rfl, rfl⟩
  | some old =>
    have hmem := lookup_mem _ _ _ hl
    have hkey := hinv.2 _ hmem
    obtain ⟨h1, h2⟩ := usageKey_inj _ _ _ _ hkey
    exact ⟨h1.symm, h2.symm⟩

theorem aggInv_addRecord (s : Agg.UsagesCollection) (r : Parser.LogRecord)
    (hinv : aggInv s) : aggInv (Agg.AddRecord s r) := by
  unfold Agg.AddRecord
  by_cases hig : Agg.shouldIgnore r
  · simpa [hig] using hinv
  · simp only [hig, Bool.false_eq_true, if_false]
    cases hdom : List.lookup r.Domain s.domains with
    | none => exact hinv
    | some w =>
      simp only
      constructor
      · exact mapSet_keys_nodup _ _ _ hinv.1
      · intro p hp
        rcases mem_mapSet _ _ _ hinv.1 p hp with rfl | ⟨hmem, _⟩
        · obtain ⟨hw, ht⟩ := addRecord_bucket_fields s w (Agg.getHour r.Time) hinv
          obtain ⟨cw, ct⟩ := classify_fields
            (match List.lookup (Agg.usageKey w.ID (Agg.getHour r.Time)) s.usages with
              | some rr => rr
              | none => Agg.freshRecord w.ID (Agg.getHour r.Time)) r
          simp only [cw, ct, hw, ht]
        · exact hinv.2 p hmem

/-- Claim C8: after any sequence of `AddRecord` calls the usages map keys
are distinct and every bucket is stored under the key derived from its own
`(WebsiteID, Time)` pair; that key determines the pair (the rendered key is
injective); and a single `AddRecord` call never touches a bucket other than
the one of the record's own resolved website and UTC hour — every entry of
the updated map is either unchanged or carries exactly that website id and
hour bucket. -/
theorem c8_bucket_invariant :
    (∀ (domains : List (String × Agg.WebsiteInfo)) (records : List Parser.LogRecord),
      ((records.foldl Agg.AddRecord (Agg.NewUsagesCollection domains)).usages.map
        Prod.fst).Nodup ∧
      ∀ p ∈ (records.foldl Agg.AddRecord (Agg.NewUsagesCollection domains)).usages,
        p.1 = Agg.usageKey p.2.WebsiteID p.2.Time) ∧
    (∀ a b c d : Int, Agg.usageKey a b = Agg.usageKey c d → a = c ∧ b = d) ∧
    (∀ (s : Agg.UsagesCollection) (r : Parser.LogRecord), aggInv s →
      ∀ (k : String) (rec : Agg.ConsumptionRecord),
        List.lookup k (Agg.AddRecord s r).usages = some rec →
        List.lookup k s.usages = some rec ∨
        ∃ w, List.lookup r.Domain s.domains = some w ∧
          rec.WebsiteID = w.ID ∧ rec.Time = Agg.getHour r.Time ∧
          k = Agg.usageKey w.ID (Agg.getHour r.Time)) := by
  refine ⟨?_, usageKey_inj, ?_⟩
  · intro domains records
    have : aggInv (records.foldl Agg.AddRecord (Agg.NewUsagesCollection domains)) := by
      induction records using List.reverseRecOn with
      | nil =>
        constructor
        · simp [Agg.NewUsagesCollection]
        · intro p hp
          simp [Agg.NewUsagesCollection] at hp
      | append_singleton rs r ih =>
        rw [List.foldl_append, List.foldl_cons, List.foldl_nil]
        exact aggInv_addRecord _ r ih
    exact this
  · intro s r hinv k rec hk
    unfold Agg.AddRecord at hk
    by_cases hig : Agg.shouldIgnore r
    · simp only [hig, if_true] at hk
      exact Or.inl hk
    · simp only [hig, Bool.false_eq_true, if_false] at hk
      cases hdom : List.lookup r.Domain s.domains with
      | none =>
        rw [hdom] at hk
        exact Or.inl hk
      | some w =>
        rw [hdom] at hk
        simp only at hk
        by_cases hkey : k = Agg.usageKey w.ID (Agg.getHour r.Time)
        · subst hkey
          rw [lookup_mapSet_self] at hk
          obtain ⟨hw, ht⟩ := addRecord_bucket_fields s w (Agg.getHour r.Time) hinv
          obtain ⟨cw, ct⟩ := classify_fields
            (match List.lookup (Agg.usageKey w.ID (Agg.getHour r.Time)) s.usages with
              | some rr => rr
              | none => Agg.freshRecord w.ID (Agg.getHour r.Time)) r
          have hrec : rec = Agg.classify
              (match List.lookup (Agg.usageKey w.ID (Agg.getHour r.Time)) s.usages with
                | some rr => rr
                | none => Agg.freshRecord w.ID (Agg.getHour r.Time)) r :=
            (Option.some.inj hk).symm
          refine Or.inr ⟨w, rfl, ?_, ?_, rfl⟩
          · rw [hrec, cw, hw]
          · rw [hrec, ct, ht]
        · rw [lookup_mapSet_ne _ _ _ _ hkey] at hk
          exact Or.inl hk

/-- Witness for C8: two records of the same website in different hours give
a map with distinct keys; the rendered key determines the website and hour;
and a concrete `AddRecord` step only produces entries of the record's own
website and hour bucket. -/
theorem c8_bucket_invariant_witness :
    ((([{ IPAddress := "1.1.1.1", Time := 10, Verb := "GET", Path := "/a",
          HTTPStatusCode := 200, Size := 5, Domain := "d.com",
          Referrer := "-", UserAgent := "UA" },
        { IPAddress := "1.1.1.1", Time := 3700, Verb := "GET", Path := "/b",
          HTTPStatusCode := 200, Size := 6, Domain := "d.com",
          Referrer := "-", UserAgent := "UA" }] : List Parser.LogRecord).foldl
       Agg.AddRecord
       (Agg.NewUsagesCollection [("d.com", { ID := 7 })])).usages.map
       Prod.fst).Nodup ∧
    ((9 : Int) = 11 → False) ∧
    (List.lookup (Agg.usageKey 7 0)
        (Agg.NewUsagesCollection [("d.com", { ID := 7 })]).usages =
      some { WebsiteID := 7, Time := 0, FilesCount := 0, Files := 0,
             Dynamic := 5, DynamicCount := 1, Other := 0, OtherCount := 0 } ∨
     ∃ w : Agg.WebsiteInfo,
       List.lookup "d.com"
           (Agg.NewUsagesCollection [("d.com", { ID := 7 })]).domains = some w ∧
       (7 : Int) = w.ID ∧ (0 : Int) = Agg.getHour 10 ∧
       Agg.usageKey 7 0 = Agg.usageKey w.ID (Agg.getHour 10)) := by
  refine ⟨?_, ?_, ?_⟩
  · exact (c8_bucket_invariant.1 [("d.com", { ID := 7 })] _).1
  · intro h
    exact absurd (c8_bucket_invariant.2.1 9 0 11 0 (by rw [h])).1 (by decide)
  · exact c8_bucket_invariant.2.2
      (Agg.NewUsagesCollection [("d.com", { ID := 7 })])
      { IPAddress := "1.1.1.1", Time := 10, Verb := "GET", Path := "/a",
        HTTPStatusCode := 200, Size := 5, Domain := "d.com",
        Referrer := "-", UserAgent := "UA" }
      (by decide) (Agg.usageKey 7 0)
      { WebsiteID := 7, Time := 0, FilesCount := 0, Files := 0,
        Dynamic := 5, DynamicCount := 1, Other := 0, OtherCount := 0 }
      (by decide)

/-! ### Claim C7 — canonicalization determinism and sensitivity -/

theorem lookup_middle_ne {β : Type} (pre post : List (String × β)) (m n : String)
    (v : β) (h : m ≠ n) :
    List.lookup m (pre ++ (n, v) :: post) = List.lookup m (pre ++ post) := by
  induction pre with
  | nil =>
    have hb : (m == n) = false := beq_eq_false_iff_ne.2 h
    simp [List.lookup, hb]
  | cons p rest ih =>
    obtain ⟨k', v'⟩ := p
    by_cases hk : m = k'
    · subst hk
      simp [List.lookup]
    · have hb : (m == k') = false := beq_eq_false_iff_ne.2 hk
      simp only [List.cons_append, List.lookup, hb]
      exact ih

theorem lookup_middle_self {β : Type} (pre post : List (String × β)) (n : String)
    (v : β) (h : n ∉ pre.map Prod.fst) :
    List.lookup n (pre ++ (n, v) :: post) = some v := by
  induction pre with
  | nil => simp [List.lookup]
  | cons p rest ih =>
    obtain ⟨k', v'⟩ := p
    simp only [List.map_cons, List.mem_cons] at h
    push_neg at h
    have hb : (n == k') = false := beq_eq_false_iff_ne.2 h.1
    simp only [List.cons_append, List.lookup, hb]
    exact ih h.2

theorem cmOf_append (pre l : List (String × String)) :
    Azure.cmOf (pre ++ l) = List.foldl Azure.cmStep (Azure.cmOf pre) l := by
  unfold Azure.cmOf
  rw [List.foldl_append]

theorem cmStep_skip (cm : List (String × String)) (n : String) (v : String)
    (h : Azure.xmsMatch (Azure.normalizeHeaderName n) = false) :
    Azure.cmStep cm (n, v) = cm := by
  unfold Azure.cmStep
  simp [h]

/-- Inserting a non-vendor header anywhere leaves the `cm` map unchanged. -/
theorem cmOf_middle_skip (pre post : List (String × String)) (n : String)
    (v : String) (h : Azure.xmsMatch (Azure.normalizeHeaderName n) = false) :
    Azure.cmOf (pre ++ (n, v) :: post) = Azure.cmOf (pre ++ post) := by
  rw [cmOf_append, cmOf_append, List.foldl_cons, cmStep_skip _ _ _ h]

/-- Changing the value of a directly-read header (at its blanked value for
`Content-Length`) changes the canonicalized string. -/
theorem canonical_fixed_sensitive (verb res : String)
    (pre post : List (String × String)) (n v1 v2 : String)
    (hn : n ∈ Azure.fixedHeaderNames)
    (hpre : n ∉ pre.map Prod.fst)
    (hv : Azure.slotVal n v1 ≠ Azure.slotVal n v2) :
    Azure.buildCanonicalizedString verb (pre ++ (n, v1) :: post) res ≠
      Azure.buildCanonicalizedString verb (pre ++ (n, v2) :: post) res := by
  have hxms : Azure.xmsMatch (Azure.normalizeHeaderName n) = false := by
    simp only [Azure.fixedHeaderNames, List.mem_cons, List.not_mem_nil, or_false] at hn
    rcases hn with rfl | rfl | rfl | rfl | rfl | rfl | rfl | rfl | rfl | rfl | rfl <;>
      decide
  obtain ⟨NA, NB, hsplit⟩ := List.append_of_mem hn
  have hnodup : Azure.fixedHeaderNames.Nodup := by decide
  rw [hsplit] at hnodup
  obtain ⟨hndA, hndB, hdisj⟩ := List.nodup_append.mp hnodup
  have hnA : n ∉ NA := fun hmem => hdisj hmem (List.mem_cons_self n NB)
  have hoth : ∀ m, m ≠ n →
      Azure.hGet (pre ++ (n, v1) :: post) m = Azure.hGet (pre ++ (n, v2) :: post) m := by
    intro m hm
    unfold Azure.hGet
    rw [lookup_middle_ne _ _ _ _ _ hm, lookup_middle_ne _ _ _ _ _ hm]
  have hself1 : Azure.hGet (pre ++ (n, v1) :: post) n = v1 := by
    unfold Azure.hGet
    rw [lookup_middle_self _ _ _ _ hpre]
    rfl
  have hself2 : Azure.hGet (pre ++ (n, v2) :: post) n = v2 := by
    unfold Azure.hGet
    rw [lookup_middle_self _ _ _ _ hpre]
    rfl
  have hch : Azure.buildCanonicalizedHeader (pre ++ (n, v1) :: post) =
      Azure.buildCanonicalizedHeader (pre ++ (n, v2) :: post) := by
    unfold Azure.buildCanonicalizedHeader
    rw [cmOf_middle_skip _ _ _ _ hxms, cmOf_middle_skip _ _ _ _ hxms]
  intro heq
  apply hv
  unfold Azure.buildCanonicalizedString Azure.canonicalFields at heq
  rw [hsplit, List.map_append, List.map_cons, List.map_append, List.map_cons] at heq
  have hNA : NA.map (fun m => Azure.slotVal m (Azure.hGet (pre ++ (n, v2) :: post) m)) =
      NA.map (fun m => Azure.slotVal m (Azure.hGet (pre ++ (n, v1) :: post) m)) := by
    apply List.map_congr_left
    intro m hm
    rw [hoth m (fun hc => hnA (hc ▸ hm))]
  have hNB : NB.map (fun m => Azure.slotVal m (Azure.hGet (pre ++ (n, v2) :: post) m)) =
      NB.map (fun m => Azure.slotVal m (Azure.hGet (pre ++ (n, v1) :: post) m)) := by
    apply List.map_congr_left
    intro m hm
    have hnB : n ∉ NB := (List.nodup_cons.mp hndB).1
    rw [hoth m (fun hc => hnB (hc ▸ hm))]
  rw [hNA, hNB, ← hch, hself1, hself2] at heq
  have hshape : ∀ (d : String) (A : List String) (x : String) (B : List String)
      (b r : String), d :: ((A ++ x :: B) ++ [b, r]) = (d :: A) ++ x :: (B ++ [b, r]) := by
    intro d A x B b r
    simp
  rw [hshape, hshape] at heq
  exact joinLines_cancel _ _ _ _ heq

theorem insertSorted_perm (x : String) (l : List String) :
    (Azure.insertSorted x l).Perm (x :: l) := by
  induction l with
  | nil => exact List.Perm.refl _
  | cons y ys ih =>
    unfold Azure.insertSorted
    by_cases h : x ≤ y
    · simp only [h, if_true]
      exact List.Perm.refl _
    · simp only [h, if_false]
      exact (List.Perm.cons y ih).trans (List.Perm.swap x y ys)

theorem sortStrings_perm (l : List String) : (Azure.sortStrings l).Perm l := by
  induction l with
  | nil => exact List.Perm.refl _
  | cons y ys ih =>
    unfold Azure.sortStrings
    rw [List.foldr_cons]
    exact (insertSorted_perm y _).trans (List.Perm.cons y ih)

theorem cmFold_keys_nodup :
    ∀ (l : List (String × String)) (cm : List (String × String)),
      (cm.map Prod.fst).Nodup → ((List.foldl Azure.cmStep cm l).map Prod.fst).Nodup := by
  intro l
  induction l with
  | nil => intro cm h; exact h
  | cons p rest ih =>
    intro cm h
    rw [List.foldl_cons]
    apply ih
    unfold Azure.cmStep
    by_cases hx : Azure.xmsMatch (Azure.normalizeHeaderName p.1)
    · simp only [hx, if_true]
      exact mapSet_keys_nodup _ _ _ h
    · simpa [hx] using h

theorem cmOf_keys_nodup (headers : List (String × String)) :
    ((Azure.cmOf headers).map Prod.fst).Nodup := by
  unfold Azure.cmOf
  exact cmFold_keys_nodup headers [] (by simp)

/-- Folding the remaining headers over two `cm` maps that agree except in
the value stored under `nn` — which none of the remaining headers
normalizes to — preserves that relationship. -/
theorem cmFold_pair (nn v1 v2 : String) :
    ∀ (l : List (String × String)) (cmA cmB : List (String × String)),
      (∀ p ∈ l, Azure.normalizeHeaderName p.1 ≠ nn) →
      cmA.map Prod.fst = cmB.map Prod.fst →
      (∀ k, k ≠ nn → List.lookup k cmA = List.lookup k cmB) →
      List.lookup nn cmA = some v1 → List.lookup nn cmB = some v2 →
      (List.foldl Azure.cmStep cmA l).map Prod.fst =
        (List.foldl Azure.cmStep cmB l).map Prod.fst ∧
      (∀ k, k ≠ nn → List.lookup k (List.foldl Azure.cmStep cmA l) =
        List.lookup k (List.foldl Azure.cmStep cmB l)) ∧
      List.lookup nn (List.foldl Azure.cmStep cmA l) = some v1 ∧
      List.lookup nn (List.foldl Azure.cmStep cmB l) = some v2 := by
  intro l
  induction l with
  | nil =>
    intro cmA cmB _ h1 h2 h3 h4
    exact ⟨h1, h2, h3, h4⟩
  | cons p rest ih =>
    intro cmA cmB hl h1 h2 h3 h4
    rw [List.foldl_cons, List.foldl_cons]
    have hp : Azure.normalizeHeaderName p.1 ≠ nn := hl p (List.mem_cons_self p rest)
    by_cases hx : Azure.xmsMatch (Azure.normalizeHeaderName p.1)
    · have hstepA : Azure.cmStep cmA p = mapSet cmA (Azure.normalizeHeaderName p.1) p.2 := by
        unfold Azure.cmStep
        simp [hx]
      have hstepB : Azure.cmStep cmB p = mapSet cmB (Azure.normalizeHeaderName p.1) p.2 := by
        unfold Azure.cmStep
        simp [hx]
      apply ih
      · exact fun q hq => hl q (List.mem_cons_of_mem _ hq)
      · rw [hstepA, hstepB, mapSet_keys, mapSet_keys, h1]
      · intro k hk
        rw [hstepA, hstepB]
        by_cases hkp : k = Azure.normalizeHeaderName p.1
        · subst hkp
          rw [lookup_mapSet_self, lookup_mapSet_self]
        · rw [lookup_mapSet_ne _ _ _ _ hkp, lookup_mapSet_ne _ _ _ _ hkp]
          exact h2 k hk
      · rw [hstepA, lookup_mapSet_ne _ _ _ _ (Ne.symm hp)]
        exact h3
      · rw [hstepB, lookup_mapSet_ne _ _ _ _ (Ne.symm hp)]
        exact h4
    · have hstepA : Azure.cmStep cmA p = cmA := by
        unfold Azure.cmStep
        simp [hx]
      have hstepB : Azure.cmStep cmB p = cmB := by
        unfold Azure.cmStep
        simp [hx]
      rw [hstepA, hstepB]
      exact ih cmA cmB (fun q hq => hl q (List.mem_cons_of_mem _ hq)) h1 h2 h3 h4

/-- Changing the value of a vendor (`x-ms-`) header — when no other header
shares its normalized name — changes the canonicalized string. -/
theorem canonical_xms_sensitive (verb res : String)
    (pre post : List (String × String)) (n v1 v2 : String)
    (hx : Azure.xmsMatch (Azure.normalizeHeaderName n) = true)
    (hothers : ∀ p ∈ pre ++ post,
      Azure.normalizeHeaderName p.1 ≠ Azure.normalizeHeaderName n)
    (hv : v1 ≠ v2) :
    Azure.buildCanonicalizedString verb (pre ++ (n, v1) :: post) res ≠
      Azure.buildCanonicalizedString verb (pre ++ (n, v2) :: post) res := by
  have hcm1 : Azure.cmOf (pre ++ (n, v1) :: post) =
      List.foldl Azure.cmStep
        (mapSet (Azure.cmOf pre) (Azure.normalizeHeaderName n) v1) post := by
    rw [cmOf_append, List.foldl_cons]
    congr 1
    unfold Azure.cmStep
    simp [hx]
  have hcm2 : Azure.cmOf (pre ++ (n, v2) :: post) =
      List.foldl Azure.cmStep
        (mapSet (Azure.cmOf pre) (Azure.normalizeHeaderName n) v2) post := by
    rw [cmOf_append, List.foldl_cons]
    congr 1
    unfold Azure.cmStep
    simp [hx]
  have hpost : ∀ p ∈ post,
      Azure.normalizeHeaderName p.1 ≠ Azure.normalizeHeaderName n :=
    fun p hp => hothers p (List.mem_append_right pre hp)
  obtain ⟨hK, hoff, hv1l, hv2l⟩ :=
    cmFold_pair (Azure.normalizeHeaderName n) v1 v2 post
      (mapSet (Azure.cmOf pre) (Azure.normalizeHeaderName n) v1)
      (mapSet (Azure.cmOf pre) (Azure.normalizeHeaderName n) v2)
      hpost
      (by rw [mapSet_keys, mapSet_keys])
      (by
        intro k hk
        rw [lookup_mapSet_ne _ _ _ _ hk, lookup_mapSet_ne _ _ _ _ hk])
      (lookup_mapSet_self _ _ _)
      (lookup_mapSet_self _ _ _)
  rw [← hcm1] at hK hoff hv1l
  rw [← hcm2] at hK hoff hv2l
  have hnodup1 : ((Azure.cmOf (pre ++ (n, v1) :: post)).map Prod.fst).Nodup :=
    cmOf_keys_nodup _
  have hmemK : Azure.normalizeHeaderName n ∈
      (Azure.cmOf (pre ++ (n, v1) :: post)).map Prod.fst :=
    List.mem_map_of_mem Prod.fst (lookup_mem _ _ _ hv1l)
  have hbch : Azure.buildCanonicalizedHeader (pre ++ (n, v1) :: post) ≠
      Azure.buildCanonicalizedHeader (pre ++ (n, v2) :: post) := by
    unfold Azure.buildCanonicalizedHeader
    have hne1 : (Azure.cmOf (pre ++ (n, v1) :: post)).isEmpty = false := by
      cases hc : Azure.cmOf (pre ++ (n, v1) :: post) with
      | nil =>
        rw [hc] at hmemK
        simp at hmemK
      | cons q qs => rfl
    have hne2 : (Azure.cmOf (pre ++ (n, v2) :: post)).isEmpty = false := by
      cases hc : Azure.cmOf (pre ++ (n, v2) :: post) with
      | nil =>
        rw [hc] at hK
        simp at hK
        rw [hK] at hmemK
        simp at hmemK
      | cons q qs => rfl
    simp only [hne1, hne2, Bool.false_eq_true, if_false]
    rw [← hK]
    have hmemS : Azure.normalizeHeaderName n ∈
        Azure.sortStrings ((Azure.cmOf (pre ++ (n, v1) :: post)).map Prod.fst) :=
      (sortStrings_perm _).mem_iff.mpr hmemK
    have hndS :
        (Azure.sortStrings ((Azure.cmOf (pre ++ (n, v1) :: post)).map Prod.fst)).Nodup :=
      (sortStrings_perm _).nodup_iff.mpr hnodup1
    obtain ⟨A, B, hsplit⟩ := List.append_of_mem hmemS
    rw [hsplit] at hndS
    obtain ⟨hndA, hndB, hdisj⟩ := List.nodup_append.mp hndS
    have hnA : Azure.normalizeHeaderName n ∉ A :=
      fun hmem => hdisj hmem (List.mem_cons_self _ B)
    have hnB : Azure.normalizeHeaderName n ∉ B := (List.nodup_cons.mp hndB).1
    intro heq
    apply hv
    rw [hsplit, List.map_append, List.map_cons, List.map_append, List.map_cons] at heq
    have hA : A.map (fun key => key ++ ":" ++
        Azure.hGet (Azure.cmOf (pre ++ (n, v2) :: post)) key) =
        A.map (fun key => key ++ ":" ++
          Azure.hGet (Azure.cmOf (pre ++ (n, v1) :: post)) key) := by
      apply List.map_congr_left
      intro k hk
      have hkn : k ≠ Azure.normalizeHeaderName n := fun hc => hnA (hc ▸ hk)
      unfold Azure.hGet
      rw [hoff k hkn]
    have hB : B.map (fun key => key ++ ":" ++
        Azure.hGet (Azure.cmOf (pre ++ (n, v2) :: post)) key) =
        B.map (fun key => key ++ ":" ++
          Azure.hGet (Azure.cmOf (pre ++ (n, v1) :: post)) key) := by
      apply List.map_congr_left
      intro k hk
      have hkn : k ≠ Azure.normalizeHeaderName n := fun hc => hnB (hc ▸ hk)
      unfold Azure.hGet
      rw [hoff k hkn]
    rw [hA, hB] at heq
    have hg1 : Azure.hGet (Azure.cmOf (pre ++ (n, v1) :: post))
        (Azure.normalizeHeaderName n) = v1 := by
      unfold Azure.hGet
      rw [hv1l]
      rfl
    have hg2 : Azure.hGet (Azure.cmOf (pre ++ (n, v2) :: post))
        (Azure.normalizeHeaderName n) = v2 := by
      unfold Azure.hGet
      rw [hv2l]
      rfl
    simp only [hg1, hg2] at heq
    have := joinLines_cancel _ _ _ _ heq
    exact string_append_cancel_left this
  have hfix : Azure.fixedHeaderNames.map (fun m =>
      Azure.slotVal m (Azure.hGet (pre ++ (n, v2) :: post) m)) =
      Azure.fixedHeaderNames.map (fun m =>
        Azure.slotVal m (Azure.hGet (pre ++ (n, v1) :: post) m)) := by
    apply List.map_congr_left
    intro m hm
    have hmn : m ≠ n := by
      intro hc
      subst hc
      simp only [Azure.fixedHeaderNames, List.mem_cons, List.not_mem_nil,
        or_false] at hm
      rcases hm with rfl | rfl | rfl | rfl | rfl | rfl | rfl | rfl | rfl | rfl | rfl <;>
        exact absurd hx (by decide)
    unfold Azure.hGet
    rw [lookup_middle_ne _ _ _ _ _ hmn, lookup_middle_ne _ _ _ _ _ hmn]
  intro heq
  apply hbch
  unfold Azure.buildCanonicalizedString Azure.canonicalFields at heq
  rw [hfix] at heq
  have hshape : ∀ (d : String) (M : List String) (b r : String),
      d :: (M ++ [b, r]) = (d :: M) ++ b :: [r] := by
    intro d M b r
    simp
  rw [hshape, hshape] at heq
  exact joinLines_cancel _ _ _ _ heq

/-- Claim C7 (amended): signing is deterministic — equal inputs give the
identical authorization header under both schemes; and the canonicalized
string is sensitive to every header it includes, except that a
`Content-Length` of `"0"` is canonicalized identically to an absent or
empty one: changing a directly-read header at its canonicalized (blanked)
value changes the canonicalized string, changing a vendor (`x-ms-`) header
whose normalized name no other header shares changes it too, and for the
`SharedKeyLite` scheme changing `x-ms-date` changes the signed string. -/
theorem c7_signing :
    (∀ (c : Azure.Client) (hmac : String → String) (verb res path : String)
      (headers : List (String × String)),
      Azure.createAuthorizationHeader c hmac
          (Azure.buildCanonicalizedString verb headers res) =
        Azure.createAuthorizationHeader c hmac
          (Azure.buildCanonicalizedString verb headers res) ∧
      Azure.createSharedKeyLite c hmac path headers =
        Azure.createSharedKeyLite c hmac path headers) ∧
    (∀ (verb res : String) (pre post : List (String × String)) (n v1 v2 : String),
      n ∈ Azure.fixedHeaderNames → n ∉ pre.map Prod.fst →
      Azure.slotVal n v1 ≠ Azure.slotVal n v2 →
      Azure.buildCanonicalizedString verb (pre ++ (n, v1) :: post) res ≠
        Azure.buildCanonicalizedString verb (pre ++ (n, v2) :: post) res) ∧
    (∀ (verb res : String) (pre post : List (String × String)) (n v1 v2 : String),
      Azure.xmsMatch (Azure.normalizeHeaderName n) = true →
      (∀ p ∈ pre ++ post,
        Azure.normalizeHeaderName p.1 ≠ Azure.normalizeHeaderName n) →
      v1 ≠ v2 →
      Azure.buildCanonicalizedString verb (pre ++ (n, v1) :: post) res ≠
        Azure.buildCanonicalizedString verb (pre ++ (n, v2) :: post) res) ∧
    (∀ (c : Azure.Client) (path : String) (pre post : List (String × String))
      (v1 v2 : String),
      "x-ms-date" ∉ pre.map Prod.fst → v1 ≠ v2 →
      Azure.liteStringToSign c path (pre ++ ("x-ms-date", v1) :: post) ≠
        Azure.liteStringToSign c path (pre ++ ("x-ms-date", v2) :: post)) := by
  refine ⟨fun c hmac verb res path headers => ⟨rfl, rfl⟩,
    canonical_fixed_sensitive, canonical_xms_sensitive, ?_⟩
  intro c path pre post v1 v2 hpre hv
  unfold Azure.liteStringToSign Azure.hGet
  rw [lookup_middle_self _ _ _ _ hpre, lookup_middle_self _ _ _ _ hpre]
  intro heq
  apply hv
  exact string_append_cancel_right (string_append_cancel_right heq)

/-- Witness for C7: concrete cases of each conjunct — determinism at a
concrete request, a changed `Date` header, a changed `x-ms-version` header,
and a changed `x-ms-date` under the lite scheme, each changing the signed
string. -/
theorem c7_signing_witness :
    (Azure.createAuthorizationHeader { accountName := "acct" } (fun s => s)
        (Azure.buildCanonicalizedString "GET"
          [("Content-Type", "application/json")] "/acct/Tables") =
      Azure.createAuthorizationHeader { accountName := "acct" } (fun s => s)
        (Azure.buildCanonicalizedString "GET"
          [("Content-Type", "application/json")] "/acct/Tables")) ∧
    Azure.buildCanonicalizedString "GET"
        [("Date", "Mon, 01 Aug 2016 00:00:00 GMT")] "/acct/Tables" ≠
      Azure.buildCanonicalizedString "GET"
        [("Date", "Tue, 02 Aug 2016 00:00:00 GMT")] "/acct/Tables" ∧
    Azure.buildCanonicalizedString "GET"
        [("x-ms-version", "2015-02-21")] "/acct/Tables" ≠
      Azure.buildCanonicalizedString "GET"
        [("x-ms-version", "2016-01-01")] "/acct/Tables" ∧
    Azure.liteStringToSign { accountName := "acct" } "/Tables"
        [("x-ms-date", "Mon, 01 Aug 2016 00:00:00 GMT")] ≠
      Azure.liteStringToSign { accountName := "acct" } "/Tables"
        [("x-ms-date", "Tue, 02 Aug 2016 00:00:00 GMT")] := by
  refine ⟨(c7_signing.1 { accountName := "acct" } (fun s => s) "GET" "/acct/Tables"
    "/Tables" [("Content-Type", "application/json")]).1, ?_, ?_, ?_⟩
  · exact c7_signing.2.1 "GET" "/acct/Tables" [] [] "Date"
      "Mon, 01 Aug 2016 00:00:00 GMT" "Tue, 02 Aug 2016 00:00:00 GMT"
      (by decide) (by decide) (by decide)
  · exact c7_signing.2.2.1 "GET" "/acct/Tables" [] [] "x-ms-version"
      "2015-02-21" "2016-01-01" (by decide) (by simp) (by decide)
  · exact c7_signing.2.2.2 { accountName := "acct" } "/Tables" [] []
      "Mon, 01 Aug 2016 00:00:00 GMT" "Tue, 02 Aug 2016 00:00:00 GMT"
      (by decide) (by decide)

/-- Counterexample to C7 as stated: the canonicalization blanks a
`Content-Length` of `"0"`, so two header maps that differ in the value of
the included `Content-Length` header (`"0"` versus empty/absent) yield the
same canonicalized string — and hence the same HMAC input. -/
theorem c7_counterexample :
    Azure.buildCanonicalizedString "PUT" [("Content-Length", "0")] "/acct/Tables" =
      Azure.buildCanonicalizedString "PUT" [("Content-Length", "")] "/acct/Tables" ∧
    ("0" : String) ≠ "" := by
  constructor
  · decide
  · decide
